import Mathlib

/-!
# Verification of the geoarrow columnar geometry encoding core

This file gives a shallow embedding, in Lean, of the core data model and
operations of the geoarrow repository (coordinate buffers, offset buffers,
validity bitmaps, typed geometry arrays, the incremental builders, the
casting engine and the WKB point codec) and proves properties of them.

Conventions of the embedding:

* A coordinate is a pair of 64-bit IEEE-754 bit patterns, modelled as a pair
  of natural numbers (each intended `< 2^64`).  No floating-point arithmetic
  is performed anywhere in the modelled code: coordinates are only moved
  between buffers, so the bit-pattern view is exact.
* An offsets buffer (`arrow2::offset::Offsets` / `OffsetsBuffer`) is a list
  of natural numbers starting at 0; a buffer with `k+1` entries describes
  `k` runs.  `push(run)` appends `last + run`.
* A validity bitmap is a `List Bool`; arrays store `Option (List Bool)`
  where `none` means "no nulls".  Finishing a builder normalises an
  all-true bitmap to `none`, exactly as the source does with
  `unset_bits() == 0`.
* Rust `panic!` / `unwrap()` on `None` / `todo!` are modelled by explicit
  `panic` constructors of the result types.
-/

set_option linter.unusedVariables false

namespace GeoArrow

/-- A 2-D coordinate: the IEEE-754 bit patterns of x and y. -/
abbrev CoordM := Nat × Nat

/-! ## Little-endian byte encoding (used by the WKB codec) -/

/-- Encode `x` as `w` little-endian bytes (the semantics of
`byteorder::WriteBytesExt::write_u32::<LittleEndian>` and
`write_f64::<LittleEndian>` applied to the bit pattern). -/
def toLEBytes : Nat → Nat → List Nat
  | 0, _ => []
  | w + 1, x => x % 256 :: toLEBytes w (x / 256)

/-- Decode a little-endian byte list back into a natural number. -/
def fromLEBytes : List Nat → Nat
  | [] => 0
  | b :: bs => b + 256 * fromLEBytes bs

theorem toLEBytes_length (w x : Nat) : (toLEBytes w x).length = w := by
  induction w generalizing x with
  | zero => rfl
  | succ w ih => simp [toLEBytes, ih]

theorem fromLEBytes_toLEBytes (w x : Nat) :
    fromLEBytes (toLEBytes w x) = x % 256 ^ w := by
  induction w generalizing x with
  | zero => simp [toLEBytes, fromLEBytes, Nat.mod_one]
  | succ w ih =>
    have h : (256 : Nat) ^ (w + 1) = 256 * 256 ^ w := by ring
    simp only [toLEBytes, fromLEBytes, ih, h]
    rw [Nat.mod_mul]

theorem fromLEBytes_toLEBytes_of_lt {w x : Nat} (h : x < 256 ^ w) :
    fromLEBytes (toLEBytes w x) = x := by
  rw [fromLEBytes_toLEBytes, Nat.mod_eq_of_lt h]

/-! ## Offsets buffers -/

/-- A fresh offsets buffer, holding the single starting offset `0`
(`Offsets::with_capacity` starts from `vec![0]`). -/
def offsetsNew : List Nat := [0]

/-- The final offset: total child length consumed so far (`Offsets::last`). -/
def offsetsLast (o : List Nat) : Nat := o.getLastD 0

/-- `try_push_usize(run)`: append a new terminal offset `last + run`.
In this embedding offsets are unbounded naturals, so the push is total
(the source fails only when the new offset overflows the index width). -/
def offsetsPush (o : List Nat) (run : Nat) : List Nat := o ++ [offsetsLast o + run]

/-- Number of runs described by an offsets buffer (`len_proxy`):
one less than the number of offsets. -/
def offsetsLen (o : List Nat) : Nat := o.length - 1

/-- `start_end(i)`: the run `i` spans `[offsets[i], offsets[i+1])`. -/
def offsetsStartEnd (o : List Nat) (i : Nat) : Nat × Nat :=
  (o.getD i 0, o.getD (i + 1) 0)

/-- Length of run `i`. -/
def runLen (o : List Nat) (i : Nat) : Nat := o.getD (i + 1) 0 - o.getD i 0

@[simp] theorem offsetsLast_push (o : List Nat) (run : Nat) :
    offsetsLast (offsetsPush o run) = offsetsLast o + run := by
  simp [offsetsPush, offsetsLast, List.getLastD_concat]

theorem offsetsLen_push (o : List Nat) (run : Nat) (h : o ≠ []) :
    offsetsLen (offsetsPush o run) = offsetsLen o + 1 := by
  simp only [offsetsPush, offsetsLen, List.length_append, List.length_cons,
    List.length_nil]
  have : 0 < o.length := List.length_pos.mpr h
  omega

/-! ## Validity bitmaps -/

/-- Normalisation performed when a builder is finished: if
`unset_bits() == 0` the bitmap is dropped (`None`), else kept. -/
def normValidity (v : List Bool) : Option (List Bool) :=
  if v.all (fun b => b) then none else some v

/-- Element validity: absent bitmap means all-valid. -/
def isValid : Option (List Bool) → Nat → Bool
  | none, _ => true
  | some v, i => v.getD i true

/-! ## Point arrays -/

/-- `PointArray`: a coordinate buffer plus optional validity
(length = array length; nulls still occupy a coordinate slot). -/
structure PointArrayM where
  coords : List CoordM
  validity : Option (List Bool)
  deriving Repr, DecidableEq

def PointArrayM.len (a : PointArrayM) : Nat := a.coords.length

/-- Coordinate slot written by `PointBuilder::push_point(None)`.
Modelled from the spec: the point builder is not under `src/`; a null
point still occupies one coordinate slot, whose contents are unobservable
through the valid API.  We fix it as the zero bit pattern. -/
def nullCoord : CoordM := (0, 0)

/-- `PointBuilder` state: coordinates pushed so far plus the growing
validity bitmap.  Modelled from the spec: `PointBuilder` itself is not
under `src/`; per spec §4.3 `push_<shape>` appends exactly one logical
element and one validity bit. -/
structure PointBuilderM where
  coords : List CoordM
  validity : List Bool
  deriving Repr, DecidableEq

def pointBuilderNew : PointBuilderM := ⟨[], []⟩

/-- `PointBuilder::push_point`: a `Some` pushes the coordinate and a true
bit; a `None` pushes the placeholder slot and a false bit. -/
def pointBuilderPush (b : PointBuilderM) (v : Option CoordM) : PointBuilderM :=
  match v with
  | some c => ⟨b.coords ++ [c], b.validity ++ [true]⟩
  | none => ⟨b.coords ++ [nullCoord], b.validity ++ [false]⟩

/-- `PointBuilder::finish`, normalising an all-valid bitmap to `None`. -/
def pointBuilderFinish (b : PointBuilderM) : PointArrayM :=
  ⟨b.coords, normValidity b.validity⟩

/-- The iterator of a point array: `Some coord` at valid slots, `None` at
null slots (`ZipValidity`). -/
def PointArrayM.iter (a : PointArrayM) : List (Option CoordM) :=
  (List.range a.len).map fun i =>
    if isValid a.validity i then some (a.coords.getD i nullCoord) else none

@[simp] theorem PointArrayM.iter_length (a : PointArrayM) :
    a.iter.length = a.len := by simp [PointArrayM.iter]

/-! ## WKB point writer (`src/io/wkb/writer/point.rs`) -/

/-- `POINT_WKB_SIZE`: 1-byte byte order + 4-byte type + two 8-byte doubles. -/
def POINT_WKB_SIZE : Nat := 1 + 4 + 8 + 8

/-- `Endianness::LittleEndian.into()`: the WKB little-endian flag byte. -/
def littleEndianByte : Nat := 1

/-- `write_point_as_wkb`: byte order flag, `wkbType = 1` as a little-endian
`u32`, then the x and y doubles as little-endian byte sequences. -/
def write_point_as_wkb (point : CoordM) : List Nat :=
  littleEndianByte :: toLEBytes 4 1 ++ toLEBytes 8 point.1 ++ toLEBytes 8 point.2

/-! ## Errors and cast results -/

/-- The error type as constructed by the casting engine
(`GeoArrowError::General(String)` in `src/error.rs`, the only variant the
cast code under `src/` constructs). -/
inductive GeoArrowError
  | general (msg : String)
  deriving Repr, DecidableEq

/-- Outcome of a fallible operation that may also `panic!`/`unwrap()` on
`None`: `ok`, a typed recoverable `err`, or a process-aborting `panic`. -/
inductive CastResult (α : Type)
  | ok (a : α)
  | err (e : GeoArrowError)
  | panic
  deriving Repr, DecidableEq

def CastResult.isOk {α : Type} : CastResult α → Bool
  | .ok _ => true
  | _ => false

def CastResult.isErr {α : Type} : CastResult α → Bool
  | .err _ => true
  | _ => false

def CastResult.isPanic {α : Type} : CastResult α → Bool
  | .panic => true
  | _ => false

/-! ## MultiPoint arrays -/

/-- `MultiPointArray`: coordinate buffer + one geometry offsets buffer. -/
structure MultiPointArrayM where
  coords : List CoordM
  geomOffsets : List Nat
  validity : Option (List Bool)
  deriving Repr, DecidableEq

/-- Array length: the number of runs of the geometry offsets. -/
def MultiPointArrayM.len (a : MultiPointArrayM) : Nat := offsetsLen a.geomOffsets

/-- `MultiPointTrait::num_points` of element `i`: its run length. -/
def multiPointNumPoints (a : MultiPointArrayM) (i : Nat) : Nat :=
  runLen a.geomOffsets i

/-- `MultiPoint::point(j)` of element `i`: `None` if `j` is out of bounds,
else the coordinate at `start + j`. -/
def multiPointPoint (a : MultiPointArrayM) (i j : Nat) : Option CoordM :=
  if j < multiPointNumPoints a i then
    some (a.coords.getD (a.geomOffsets.getD i 0 + j) nullCoord)
  else none

/-- `MultiPointBuilder` state.  Modelled from the spec: the multipoint
builder is not under `src/`; per spec §4.3 a pushed point becomes a
length-1 run while a null pushes a zero-length run and no coordinates. -/
structure MultiPointBuilderM where
  coords : List CoordM
  geomOffsets : List Nat
  validity : List Bool
  deriving Repr, DecidableEq

def multiPointBuilderNew : MultiPointBuilderM := ⟨[], offsetsNew, []⟩

/-- `MultiPointBuilder::push_point`. -/
def multiPointBuilderPushPoint (b : MultiPointBuilderM) (v : Option CoordM) :
    MultiPointBuilderM :=
  match v with
  | some c => ⟨b.coords ++ [c], offsetsPush b.geomOffsets 1, b.validity ++ [true]⟩
  | none => ⟨b.coords, offsetsPush b.geomOffsets 0, b.validity ++ [false]⟩

/-- `MultiPointBuilder::finish`. -/
def multiPointBuilderFinish (b : MultiPointBuilderM) : MultiPointArrayM :=
  ⟨b.coords, b.geomOffsets, normValidity b.validity⟩

/-- The `MultiPoint(_)` arm of `cast_point_array`: push every element of
the point array (valid or null) into a fresh multipoint builder. -/
def castPointToMultiPoint (a : PointArrayM) : MultiPointArrayM :=
  multiPointBuilderFinish (a.iter.foldl multiPointBuilderPushPoint multiPointBuilderNew)

/-! ## The downward-cast iteration pattern

Both `cast_multi_point_array` (→ `Point`) and `cast_multi_polygon_array`
(→ `Polygon`) iterate the source with
`x.map(|mp| mp.first_child(0).unwrap())`, pushing the result; the common
pattern is factored here.  `empty i` is true when element `i` has an empty
run, in which case `.unwrap()` of `point(0)` / `polygon(0)` panics. -/

def downcastGo {B A : Type} (valid empty : Nat → Bool) (push : B → Nat → B)
    (pushNull : B → B) (finish : B → A) : List Nat → B → CastResult A
  | [], b => .ok (finish b)
  | i :: rest, b =>
    if valid i then
      if empty i then .panic
      else downcastGo valid empty push pushNull finish rest (push b i)
    else downcastGo valid empty push pushNull finish rest (pushNull b)

/-- The `Point(_)` arm of `cast_multi_point_array`: guard
`geom_offsets.last() == len`, then push `x.map(|mp| mp.point(0).unwrap())`
for every element. -/
def castMultiPointToPoint (a : MultiPointArrayM) : CastResult PointArrayM :=
  if offsetsLast a.geomOffsets ≠ a.len then .err (.general "Unable to cast")
  else
    downcastGo (fun i => isValid a.validity i)
      (fun i => (multiPointPoint a i 0).isNone)
      (fun b i => pointBuilderPush b (multiPointPoint a i 0))
      (fun b => pointBuilderPush b none)
      pointBuilderFinish (List.range a.len) pointBuilderNew

/-! ## Polygon and MultiPolygon arrays -/

/-- A polygon value: its rings, each a coordinate list. -/
abbrev PolygonV := List (List CoordM)

/-- `PolygonBuilder` state.  Modelled from the spec: the polygon builder
is not under `src/`; a pushed polygon appends its rings' coordinates, one
ring-offset run per ring, and one geometry run of length `num_rings`;
null pushes a zero-length geometry run. -/
structure PolygonBuilderM where
  coords : List CoordM
  geomOffsets : List Nat
  ringOffsets : List Nat
  validity : List Bool
  deriving Repr, DecidableEq

def polygonBuilderNew : PolygonBuilderM := ⟨[], offsetsNew, offsetsNew, []⟩

/-- `PolygonBuilder::push_polygon`. -/
def polygonBuilderPushPolygon (b : PolygonBuilderM) (v : Option PolygonV) :
    PolygonBuilderM :=
  match v with
  | some rings =>
      ⟨b.coords ++ rings.flatten,
       offsetsPush b.geomOffsets rings.length,
       rings.foldl (fun ro ring => offsetsPush ro ring.length) b.ringOffsets,
       b.validity ++ [true]⟩
  | none => ⟨b.coords, offsetsPush b.geomOffsets 0, b.ringOffsets, b.validity ++ [false]⟩

/-- `PolygonArray`: coordinates + ring offsets + geometry offsets. -/
structure PolygonArrayM where
  coords : List CoordM
  geomOffsets : List Nat
  ringOffsets : List Nat
  validity : Option (List Bool)
  deriving Repr, DecidableEq

def polygonBuilderFinish (b : PolygonBuilderM) : PolygonArrayM :=
  ⟨b.coords, b.geomOffsets, b.ringOffsets, normValidity b.validity⟩

/-- `MultiPolygonArray`: coordinates + ring offsets + polygon offsets +
geometry offsets (three nesting levels). -/
structure MultiPolygonArrayM where
  coords : List CoordM
  geomOffsets : List Nat
  polygonOffsets : List Nat
  ringOffsets : List Nat
  validity : Option (List Bool)
  deriving Repr, DecidableEq

def MultiPolygonArrayM.len (a : MultiPolygonArrayM) : Nat := offsetsLen a.geomOffsets

/-- `MultiPolygonTrait::num_polygons` of element `i`. -/
def multiPolygonNumPolygons (a : MultiPolygonArrayM) (i : Nat) : Nat :=
  runLen a.geomOffsets i

/-- The polygon value stored at polygon index `p`: its rings read through
the polygon- and ring-offset buffers (the `Polygon` scalar view). -/
def multiPolygonPolygonVal (a : MultiPolygonArrayM) (p : Nat) : PolygonV :=
  (List.range (runLen a.polygonOffsets p)).map fun r =>
    let ri := a.polygonOffsets.getD p 0 + r
    (a.coords.drop (a.ringOffsets.getD ri 0)).take (runLen a.ringOffsets ri)

/-- `MultiPolygon::polygon(j)` of element `i`: `None` when out of bounds. -/
def multiPolygonPolygon (a : MultiPolygonArrayM) (i j : Nat) : Option PolygonV :=
  if j < multiPolygonNumPolygons a i then
    some (multiPolygonPolygonVal a (a.geomOffsets.getD i 0 + j))
  else none

/-! ### Specification of the downward-cast iteration -/

theorem downcastGo_not_err {B A : Type} (valid empty : Nat → Bool)
    (push : B → Nat → B) (pushNull : B → B) (finish : B → A)
    (l : List Nat) (b : B) :
    (downcastGo valid empty push pushNull finish l b).isErr = false := by
  induction l generalizing b with
  | nil => rfl
  | cons i rest ih =>
    simp only [downcastGo]
    by_cases hv : valid i
    · by_cases he : empty i
      · simp [hv, he, CastResult.isErr]
      · simp [hv, he, ih]
    · simp [hv, ih]

theorem downcastGo_panic_iff {B A : Type} (valid empty : Nat → Bool)
    (push : B → Nat → B) (pushNull : B → B) (finish : B → A)
    (l : List Nat) (b : B) :
    (downcastGo valid empty push pushNull finish l b).isPanic = true ↔
      ∃ i ∈ l, valid i = true ∧ empty i = true := by
  induction l generalizing b with
  | nil => simp [downcastGo, CastResult.isPanic]
  | cons i rest ih =>
    simp only [downcastGo]
    cases hv : valid i with
    | true =>
      cases he : empty i with
      | true => simp [CastResult.isPanic, hv, he]
      | false =>
        simp only [if_true, Bool.false_eq_true, if_false, ih]
        constructor
        · rintro ⟨j, hj, h1, h2⟩; exact ⟨j, List.mem_cons_of_mem _ hj, h1, h2⟩
        · rintro ⟨j, hj, h1, h2⟩
          rcases List.mem_cons.mp hj with rfl | hj
          · rw [he] at h2; exact absurd h2 (by simp)
          · exact ⟨j, hj, h1, h2⟩
    | false =>
      simp only [Bool.false_eq_true, if_false, ih]
      constructor
      · rintro ⟨j, hj, h1, h2⟩; exact ⟨j, List.mem_cons_of_mem _ hj, h1, h2⟩
      · rintro ⟨j, hj, h1, h2⟩
        rcases List.mem_cons.mp hj with rfl | hj
        · rw [hv] at h1; exact absurd h1 (by simp)
        · exact ⟨j, hj, h1, h2⟩

theorem downcastGo_ok {B A : Type} (valid empty : Nat → Bool)
    (push : B → Nat → B) (pushNull : B → B) (finish : B → A)
    (l : List Nat) (b : B) (h : ∀ i ∈ l, valid i = true → empty i = false) :
    downcastGo valid empty push pushNull finish l b =
      .ok (finish (l.foldl (fun b i => if valid i then push b i else pushNull b) b)) := by
  induction l generalizing b with
  | nil => rfl
  | cons i rest ih =>
    simp only [downcastGo, List.foldl_cons]
    by_cases hv : valid i
    · have he : empty i = false := h i (List.mem_cons_self i rest) hv
      simp only [hv, he, if_true, Bool.false_eq_true, if_false]
      exact ih _ fun j hj => h j (List.mem_cons_of_mem _ hj)
    · simp only [hv, Bool.false_eq_true, if_false]
      exact ih _ fun j hj => h j (List.mem_cons_of_mem _ hj)

theorem downcastGo_isOk_iff {B A : Type} (valid empty : Nat → Bool)
    (push : B → Nat → B) (pushNull : B → B) (finish : B → A)
    (l : List Nat) (b : B) :
    (downcastGo valid empty push pushNull finish l b).isOk = true ↔
      ∀ i ∈ l, valid i = true → empty i = false := by
  constructor
  · intro hok
    by_contra hbad
    push_neg at hbad
    obtain ⟨i, hi, hv, he⟩ := hbad
    have : (downcastGo valid empty push pushNull finish l b).isPanic = true :=
      (downcastGo_panic_iff valid empty push pushNull finish l b).mpr
        ⟨i, hi, hv, Bool.not_eq_false _ |>.mp he⟩
    cases hres : downcastGo valid empty push pushNull finish l b <;>
      rw [hres] at hok this <;> simp_all [CastResult.isOk, CastResult.isPanic]
  · intro h
    rw [downcastGo_ok valid empty push pushNull finish l b h]
    rfl

/-! ### Well-formed offsets and run counting -/

/-- Monotonicity of an offsets buffer. -/
def offsetsMono : List Nat → Bool
  | [] => true
  | [_] => true
  | x :: y :: rest => decide (x ≤ y) && offsetsMono (y :: rest)

/-- Well-formedness of an offsets buffer: nonempty, starts at 0,
monotonically non-decreasing (spec §3, invariant on offset buffers). -/
def offsetsWF (o : List Nat) : Bool := (o.headD 1 == 0) && offsetsMono o

theorem offsetsMono_tail {x : Nat} {rest : List Nat}
    (h : offsetsMono (x :: rest) = true) : offsetsMono rest = true := by
  cases rest with
  | nil => rfl
  | cons y t => exact (Bool.and_eq_true_iff.mp h).2

theorem runLen_cons_succ (x y : Nat) (t : List Nat) (i : Nat) :
    runLen (x :: y :: t) (i + 1) = runLen (y :: t) i := rfl

theorem offsetsLast_cons_cons (x y : Nat) (t : List Nat) :
    offsetsLast (x :: y :: t) = offsetsLast (y :: t) := by
  simp [offsetsLast, List.getLastD_cons]

/-- Lower bound: if every run of a monotone offsets buffer has length at
least one, the final offset is at least the head plus the run count. -/
theorem offsetsLast_lower_bound (o : List Nat) (hm : offsetsMono o = true)
    (h1 : ∀ i, i < offsetsLen o → 1 ≤ runLen o i) :
    o.headD 0 + offsetsLen o ≤ offsetsLast o := by
  induction o with
  | nil => simp [offsetsLen, offsetsLast]
  | cons x rest ih =>
    cases rest with
    | nil => simp [offsetsLen, offsetsLast]
    | cons y t =>
      have hxy : x ≤ y := by
        have := (Bool.and_eq_true_iff.mp hm).1
        exact of_decide_eq_true this
      have hrun0 : 1 ≤ runLen (x :: y :: t) 0 := by
        apply h1 0
        simp [offsetsLen]
      have hx1y : x + 1 ≤ y := by
        simp only [runLen, List.getD_cons_succ, List.getD_cons_zero] at hrun0
        omega
      have hrest := ih (offsetsMono_tail hm) (fun i hi => by
        have := h1 (i + 1) (by simp [offsetsLen] at hi ⊢; omega)
        rwa [runLen_cons_succ] at this)
      simp only [List.headD_cons] at hrest ⊢
      rw [offsetsLast_cons_cons]
      simp only [offsetsLen, List.length_cons] at hrest ⊢
      omega

/-- Counting: in a monotone offsets buffer whose final offset equals the
head plus the run count, runs that are all nonempty are all exactly 1. -/
theorem runs_all_one (o : List Nat) (hm : offsetsMono o = true)
    (hsum : offsetsLast o = o.headD 0 + offsetsLen o)
    (h1 : ∀ i, i < offsetsLen o → 1 ≤ runLen o i) :
    ∀ i, i < offsetsLen o → runLen o i = 1 := by
  induction o with
  | nil => intro i hi; simp [offsetsLen] at hi
  | cons x rest ih =>
    cases rest with
    | nil => intro i hi; simp [offsetsLen] at hi
    | cons y t =>
      have hrun0 : 1 ≤ runLen (x :: y :: t) 0 := h1 0 (by simp [offsetsLen])
      have hx1y : x + 1 ≤ y := by
        simp only [runLen, List.getD_cons_succ, List.getD_cons_zero] at hrun0
        omega
      have hlb := offsetsLast_lower_bound (y :: t) (offsetsMono_tail hm)
        (fun i hi => by
          have := h1 (i + 1) (by simp [offsetsLen] at hi ⊢; omega)
          rwa [runLen_cons_succ] at this)
      have hlast : offsetsLast (x :: y :: t) = offsetsLast (y :: t) :=
        offsetsLast_cons_cons x y t
      have hyx : y = x + 1 := by
        simp only [List.headD_cons, offsetsLen, List.length_cons] at hlb hsum
        rw [hlast] at hsum
        omega
      have hsum' : offsetsLast (y :: t) = (y :: t).headD 0 + offsetsLen (y :: t) := by
        simp only [List.headD_cons, offsetsLen, List.length_cons] at hsum ⊢
        rw [hlast] at hsum
        omega
      have hrest := ih (offsetsMono_tail hm) hsum' (fun i hi => by
        have := h1 (i + 1) (by simp [offsetsLen] at hi ⊢; omega)
        rwa [runLen_cons_succ] at this)
      intro i hi
      cases i with
      | zero =>
        simp only [runLen, List.getD_cons_succ, List.getD_cons_zero]
        omega
      | succ j =>
        rw [runLen_cons_succ]
        exact hrest j (by simp [offsetsLen] at hi ⊢; omega)

/-- The `Polygon(_)` arm of `cast_multi_polygon_array`: guard
`geom_offsets.last() == len`, then push
`x.map(|mp| mp.polygon(0).unwrap())` for every element. -/
def castMultiPolygonToPolygon (a : MultiPolygonArrayM) : CastResult PolygonArrayM :=
  if offsetsLast a.geomOffsets ≠ a.len then .err (.general "Unable to cast")
  else
    downcastGo (fun i => isValid a.validity i)
      (fun i => (multiPolygonPolygon a i 0).isNone)
      (fun b i => polygonBuilderPushPolygon b (multiPolygonPolygon a i 0))
      (fun b => polygonBuilderPushPolygon b none)
      polygonBuilderFinish (List.range a.len) polygonBuilderNew

/-! ### Characterisation of the two downward casts -/

theorem offsetsLast_of_runs_one (o : List Nat)
    (h1 : ∀ i, i < offsetsLen o → runLen o i = 1) :
    o ≠ [] → offsetsLast o = o.headD 0 + offsetsLen o := by
  induction o with
  | nil => intro h; exact absurd rfl h
  | cons x rest ih =>
    intro _
    cases rest with
    | nil => simp [offsetsLast, offsetsLen]
    | cons y t =>
      have hrun0 : runLen (x :: y :: t) 0 = 1 := h1 0 (by simp [offsetsLen])
      have hyx : y = x + 1 := by
        simp only [runLen, List.getD_cons_succ, List.getD_cons_zero] at hrun0
        omega
      have hrest := ih (fun i hi => by
        have := h1 (i + 1) (by simp [offsetsLen] at hi ⊢; omega)
        rwa [runLen_cons_succ] at this) (by simp)
      rw [offsetsLast_cons_cons]
      simp only [List.headD_cons, offsetsLen, List.length_cons] at hrest ⊢
      omega

theorem multiPointPoint_isNone_iff (a : MultiPointArrayM) (i : Nat) :
    (multiPointPoint a i 0).isNone = true ↔ multiPointNumPoints a i = 0 := by
  unfold multiPointPoint
  by_cases h : 0 < multiPointNumPoints a i
  · simp [h]; omega
  · simp [h]; omega

theorem castMultiPointToPoint_err_iff (a : MultiPointArrayM) :
    castMultiPointToPoint a = .err (.general "Unable to cast") ↔
      offsetsLast a.geomOffsets ≠ a.len := by
  unfold castMultiPointToPoint
  by_cases h : offsetsLast a.geomOffsets = a.len
  · rw [if_neg (by simp [h])]
    constructor
    · intro heq
      have hne := downcastGo_not_err (fun i => isValid a.validity i)
        (fun i => (multiPointPoint a i 0).isNone)
        (fun b i => pointBuilderPush b (multiPointPoint a i 0))
        (fun b => pointBuilderPush b none)
        pointBuilderFinish (List.range a.len) pointBuilderNew
      rw [heq] at hne
      simp [CastResult.isErr] at hne
    · intro hc; exact absurd h hc
  · rw [if_pos h]
    simp [h]

theorem castMultiPointToPoint_panic_iff (a : MultiPointArrayM) :
    (castMultiPointToPoint a).isPanic = true ↔
      offsetsLast a.geomOffsets = a.len ∧
        ∃ i, i < a.len ∧ isValid a.validity i = true ∧ multiPointNumPoints a i = 0 := by
  unfold castMultiPointToPoint
  by_cases h : offsetsLast a.geomOffsets = a.len
  · rw [if_neg (by simp [h])]
    rw [downcastGo_panic_iff]
    constructor
    · rintro ⟨i, hi, hv, he⟩
      exact ⟨h, i, List.mem_range.mp hi, hv, (multiPointPoint_isNone_iff a i).mp he⟩
    · rintro ⟨-, i, hi, hv, he⟩
      exact ⟨i, List.mem_range.mpr hi, hv, (multiPointPoint_isNone_iff a i).mpr he⟩
  · rw [if_pos h]
    simp [CastResult.isPanic, h]

theorem castMultiPointToPoint_isOk_iff (a : MultiPointArrayM) :
    (castMultiPointToPoint a).isOk = true ↔
      offsetsLast a.geomOffsets = a.len ∧
        ∀ i, i < a.len → isValid a.validity i = true → 0 < multiPointNumPoints a i := by
  unfold castMultiPointToPoint
  by_cases h : offsetsLast a.geomOffsets = a.len
  · rw [if_neg (by simp [h])]
    rw [downcastGo_isOk_iff]
    constructor
    · intro hall
      refine ⟨h, fun i hi hv => ?_⟩
      have := hall i (List.mem_range.mpr hi) hv
      have hn := (multiPointPoint_isNone_iff a i).not.mp (by simp [this])
      omega
    · rintro ⟨-, hall⟩
      intro i hi hv
      have hgt := hall i (List.mem_range.mp hi) hv
      show (multiPointPoint a i 0).isNone = false
      rw [multiPointPoint, if_pos hgt]
      rfl
  · rw [if_pos h]
    simp [CastResult.isOk, h]

theorem offsetsWF_headD (o : List Nat) (h : offsetsWF o = true) : o.headD 0 = 0 := by
  have h1 := (Bool.and_eq_true_iff.mp h).1
  cases o with
  | nil => simp at h1
  | cons x t =>
    simp only [List.headD_cons] at h1 ⊢
    simpa using h1

theorem offsetsWF_ne_nil (o : List Nat) (h : offsetsWF o = true) : o ≠ [] := by
  intro hn
  subst hn
  simp [offsetsWF] at h

theorem castMultiPointToPoint_nonull_iff (a : MultiPointArrayM)
    (hv : a.validity = none) (hwf : offsetsWF a.geomOffsets = true) :
    (castMultiPointToPoint a).isOk = true ↔
      ∀ i, i < a.len → multiPointNumPoints a i = 1 := by
  rw [castMultiPointToPoint_isOk_iff]
  have hmono := (Bool.and_eq_true_iff.mp hwf).2
  have hhead := offsetsWF_headD _ hwf
  constructor
  · rintro ⟨hlast, hall⟩
    have h1 : ∀ i, i < offsetsLen a.geomOffsets → 1 ≤ runLen a.geomOffsets i := by
      intro i hi
      have := hall i hi (by simp [hv, isValid])
      exact this
    exact runs_all_one a.geomOffsets hmono (by rw [hlast]; rw [hhead]; simp [MultiPointArrayM.len]) h1
  · intro hall
    constructor
    · rw [offsetsLast_of_runs_one a.geomOffsets hall (offsetsWF_ne_nil _ hwf), hhead]
      simp [MultiPointArrayM.len]
    · intro i hi _
      have := hall i hi
      omega

theorem multiPolygonPolygon_isNone_iff (a : MultiPolygonArrayM) (i : Nat) :
    (multiPolygonPolygon a i 0).isNone = true ↔ multiPolygonNumPolygons a i = 0 := by
  unfold multiPolygonPolygon
  by_cases h : 0 < multiPolygonNumPolygons a i
  · simp [h]; omega
  · simp [h]; omega

theorem castMultiPolygonToPolygon_err_iff (a : MultiPolygonArrayM) :
    castMultiPolygonToPolygon a = .err (.general "Unable to cast") ↔
      offsetsLast a.geomOffsets ≠ a.len := by
  unfold castMultiPolygonToPolygon
  by_cases h : offsetsLast a.geomOffsets = a.len
  · rw [if_neg (by simp [h])]
    constructor
    · intro heq
      have hne := downcastGo_not_err (fun i => isValid a.validity i)
        (fun i => (multiPolygonPolygon a i 0).isNone)
        (fun b i => polygonBuilderPushPolygon b (multiPolygonPolygon a i 0))
        (fun b => polygonBuilderPushPolygon b none)
        polygonBuilderFinish (List.range a.len) polygonBuilderNew
      rw [heq] at hne
      simp [CastResult.isErr] at hne
    · intro hc; exact absurd h hc
  · rw [if_pos h]
    simp [h]

theorem castMultiPolygonToPolygon_panic_iff (a : MultiPolygonArrayM) :
    (castMultiPolygonToPolygon a).isPanic = true ↔
      offsetsLast a.geomOffsets = a.len ∧
        ∃ i, i < a.len ∧ isValid a.validity i = true ∧ multiPolygonNumPolygons a i = 0 := by
  unfold castMultiPolygonToPolygon
  by_cases h : offsetsLast a.geomOffsets = a.len
  · rw [if_neg (by simp [h])]
    rw [downcastGo_panic_iff]
    constructor
    · rintro ⟨i, hi, hv, he⟩
      exact ⟨h, i, List.mem_range.mp hi, hv, (multiPolygonPolygon_isNone_iff a i).mp he⟩
    · rintro ⟨-, i, hi, hv, he⟩
      exact ⟨i, List.mem_range.mpr hi, hv, (multiPolygonPolygon_isNone_iff a i).mpr he⟩
  · rw [if_pos h]
    simp [CastResult.isPanic, h]

theorem castMultiPolygonToPolygon_isOk_iff (a : MultiPolygonArrayM) :
    (castMultiPolygonToPolygon a).isOk = true ↔
      offsetsLast a.geomOffsets = a.len ∧
        ∀ i, i < a.len → isValid a.validity i = true → 0 < multiPolygonNumPolygons a i := by
  unfold castMultiPolygonToPolygon
  by_cases h : offsetsLast a.geomOffsets = a.len
  · rw [if_neg (by simp [h])]
    rw [downcastGo_isOk_iff]
    constructor
    · intro hall
      refine ⟨h, fun i hi hv => ?_⟩
      have := hall i (List.mem_range.mpr hi) hv
      have hn := (multiPolygonPolygon_isNone_iff a i).not.mp (by simp [this])
      omega
    · rintro ⟨-, hall⟩
      intro i hi hv
      have hgt := hall i (List.mem_range.mp hi) hv
      show (multiPolygonPolygon a i 0).isNone = false
      rw [multiPolygonPolygon, if_pos hgt]
      rfl
  · rw [if_pos h]
    simp [CastResult.isOk, h]

theorem castMultiPolygonToPolygon_nonull_iff (a : MultiPolygonArrayM)
    (hv : a.validity = none) (hwf : offsetsWF a.geomOffsets = true) :
    (castMultiPolygonToPolygon a).isOk = true ↔
      ∀ i, i < a.len → multiPolygonNumPolygons a i = 1 := by
  rw [castMultiPolygonToPolygon_isOk_iff]
  have hmono := (Bool.and_eq_true_iff.mp hwf).2
  have hhead := offsetsWF_headD _ hwf
  constructor
  · rintro ⟨hlast, hall⟩
    have h1 : ∀ i, i < offsetsLen a.geomOffsets → 1 ≤ runLen a.geomOffsets i := by
      intro i hi
      exact hall i hi (by simp [hv, isValid])
    exact runs_all_one a.geomOffsets hmono
      (by rw [hlast]; rw [hhead]; simp [MultiPolygonArrayM.len]) h1
  · intro hall
    constructor
    · rw [offsetsLast_of_runs_one a.geomOffsets hall (offsetsWF_ne_nil _ hwf), hhead]
      simp [MultiPolygonArrayM.len]
    · intro i hi _
      have := hall i hi
      omega

/-! ### Closed form of repeated offset pushes -/

/-- The tail an offsets buffer gains from pushing the given run lengths,
starting from final offset `start`. -/
def offsetsFromRuns (start : Nat) : List Nat → List Nat
  | [] => []
  | r :: rs => (start + r) :: offsetsFromRuns (start + r) rs

theorem foldl_offsetsPush_eq {α : Type} (f : α → Nat) (l : List α) (o : List Nat) :
    l.foldl (fun o v => offsetsPush o (f v)) o =
      o ++ offsetsFromRuns (offsetsLast o) (l.map f) := by
  induction l generalizing o with
  | nil => simp [offsetsFromRuns]
  | cons v rest ih =>
    simp only [List.foldl_cons, List.map_cons, offsetsFromRuns, ih]
    rw [offsetsLast_push]
    simp [offsetsPush, List.append_assoc]

theorem offsetsFromRuns_length (start : Nat) (rs : List Nat) :
    (offsetsFromRuns start rs).length = rs.length := by
  induction rs generalizing start with
  | nil => rfl
  | cons r t ih => simp [offsetsFromRuns, ih]

theorem offsetsLast_cons_offsetsFromRuns (start : Nat) (rs : List Nat) :
    offsetsLast (start :: offsetsFromRuns start rs) = start + rs.sum := by
  induction rs generalizing start with
  | nil => simp [offsetsFromRuns, offsetsLast]
  | cons r t ih =>
    simp only [offsetsFromRuns, List.sum_cons]
    rw [offsetsLast_cons_cons, ih]
    omega

theorem runLen_cons_offsetsFromRuns (start : Nat) (rs : List Nat) (i : Nat)
    (h : i < rs.length) :
    runLen (start :: offsetsFromRuns start rs) i = rs.getD i 0 := by
  induction rs generalizing start i with
  | nil => simp at h
  | cons r t ih =>
    cases i with
    | zero =>
      simp only [offsetsFromRuns, runLen, List.getD_cons_succ, List.getD_cons_zero]
      omega
    | succ j =>
      simp only [offsetsFromRuns, List.getD_cons_succ]
      rw [runLen_cons_succ]
      exact ih (start + r) j (by simpa using h)

theorem getD_cons_offsetsFromRuns (start : Nat) (rs : List Nat) (i : Nat)
    (h : i ≤ rs.length) :
    (start :: offsetsFromRuns start rs).getD i 0 = start + (rs.take i).sum := by
  induction rs generalizing start i with
  | nil =>
    have hi : i = 0 := by simpa using h
    subst hi
    simp [offsetsFromRuns]
  | cons r t ih =>
    cases i with
    | zero => simp
    | succ j =>
      simp only [offsetsFromRuns, List.getD_cons_succ, List.take_succ_cons,
        List.sum_cons]
      rw [ih (start + r) j (by simpa using h)]
      omega

/-! ### Reading ranges and maps -/

theorem map_getD_range {α : Type} (l : List α) (d : α) :
    (List.range l.length).map (fun i => l.getD i d) = l := by
  induction l with
  | nil => rfl
  | cons x t ih =>
    rw [List.length_cons, List.range_succ_eq_map, List.map_cons, List.map_map]
    have h1 : (x :: t).getD 0 d = x := rfl
    have h2 : ((fun i => (x :: t).getD i d) ∘ (· + 1)) = fun i => t.getD i d := by
      funext i
      rfl
    rw [h1, h2, ih]

theorem getD_map_range {α : Type} (f : Nat → α) (n i : Nat) (h : i < n) (d : α) :
    ((List.range n).map f).getD i d = f i := by
  rw [List.getD_eq_getElem _ _ (by simpa using h)]
  simp

/-! ### Behaviour of the point → multipoint upcast -/

theorem multiPointFold_spec (l : List (Option CoordM)) (b : MultiPointBuilderM) :
    l.foldl multiPointBuilderPushPoint b =
      ⟨b.coords ++ l.filterMap id,
       l.foldl (fun o v => offsetsPush o (if v.isSome then 1 else 0)) b.geomOffsets,
       b.validity ++ l.map (·.isSome)⟩ := by
  induction l generalizing b with
  | nil => simp
  | cons v rest ih =>
    cases v with
    | some c =>
      simp only [List.foldl_cons, multiPointBuilderPushPoint, ih,
        List.filterMap_cons, List.map_cons, Option.isSome_some, id]
      simp [List.append_assoc]
    | none =>
      simp only [List.foldl_cons, multiPointBuilderPushPoint, ih,
        List.filterMap_cons, List.map_cons, Option.isSome_none, id]
      simp [List.append_assoc]

/-- Closed form of `castPointToMultiPoint`: coordinates of the valid
elements, one offset run per source element (1 if valid, 0 if null), and
the source validity as the new bitmap. -/
theorem castPointToMultiPoint_spec (a : PointArrayM) :
    castPointToMultiPoint a =
      ⟨a.iter.filterMap id,
       0 :: offsetsFromRuns 0 (a.iter.map fun v => if v.isSome then 1 else 0),
       normValidity (a.iter.map (·.isSome))⟩ := by
  unfold castPointToMultiPoint multiPointBuilderFinish multiPointBuilderNew
  rw [multiPointFold_spec]
  simp only [foldl_offsetsPush_eq (fun (v : Option CoordM) => if v.isSome then 1 else 0)]
  simp [offsetsNew, offsetsLast]

theorem iter_getD (a : PointArrayM) (i : Nat) (h : i < a.len) :
    a.iter.getD i none =
      if isValid a.validity i then some (a.coords.getD i nullCoord) else none := by
  unfold PointArrayM.iter
  rw [getD_map_range _ _ _ h]

theorem isValid_normValidity (v : List Bool) (i : Nat) :
    isValid (normValidity v) i = v.getD i true := by
  unfold normValidity
  by_cases h : v.all (fun b => b) = true
  · rw [if_pos h]
    show true = v.getD i true
    by_cases hi : i < v.length
    · rw [List.getD_eq_getElem _ _ hi]
      exact (List.all_eq_true.mp h _ (List.getElem_mem hi)).symm
    · rw [List.getD_eq_default _ _ (by omega)]
  · rw [if_neg h]
    rfl

theorem getD_map_isSome (l : List (Option CoordM)) (i : Nat) (h : i < l.length) :
    (l.map (·.isSome)).getD i true = (l.getD i none).isSome := by
  rw [List.getD_eq_getElem _ _ (by simpa using h), List.getD_eq_getElem _ _ h]
  simp

theorem getD_replicate_of_lt {α : Type} (n i : Nat) (x d : α) (h : i < n) :
    (List.replicate n x).getD i d = x := by
  rw [List.getD_eq_getElem _ _ (by simpa using h)]
  simp

theorem normValidity_replicate_true (n : Nat) :
    normValidity (List.replicate n true) = none := by
  unfold normValidity
  rw [if_pos]
  simp [List.all_eq_true]

theorem iter_allValid (a : PointArrayM)
    (h : ∀ i, i < a.len → isValid a.validity i = true) :
    a.iter = a.coords.map some := by
  unfold PointArrayM.iter
  have h1 : (List.range a.len).map
      (fun i => if isValid a.validity i then some (a.coords.getD i nullCoord) else none)
      = (List.range a.len).map (fun i => some (a.coords.getD i nullCoord)) := by
    apply List.map_congr_left
    intro i hi
    rw [h i (List.mem_range.mp hi)]
    rfl
  rw [h1]
  have h2 : (fun i => some (a.coords.getD i nullCoord))
      = (some ∘ fun i => a.coords.getD i nullCoord) := rfl
  rw [h2, ← List.map_map, show a.len = a.coords.length from rfl, map_getD_range]

/-- On an all-valid point array the upcast keeps the coordinate buffer,
produces the offsets `0,1,…,n` (all runs of multiplicity 1) and no
validity bitmap. -/
theorem castPointToMultiPoint_allValid (a : PointArrayM)
    (h : ∀ i, i < a.len → isValid a.validity i = true) :
    castPointToMultiPoint a =
      ⟨a.coords, 0 :: offsetsFromRuns 0 (List.replicate a.len 1), none⟩ := by
  rw [castPointToMultiPoint_spec, iter_allValid a h]
  have hc : List.filterMap id (a.coords.map some) = a.coords := by
    simp
  have ho : (a.coords.map some).map (fun v => if v.isSome then 1 else 0)
      = List.replicate a.len 1 := by
    rw [List.map_map]
    show a.coords.map (fun _ => 1) = List.replicate a.coords.length 1
    simp
  have hv : (a.coords.map some).map (·.isSome) = List.replicate a.len true := by
    rw [List.map_map]
    show a.coords.map (fun _ => true) = List.replicate a.coords.length true
    simp
  rw [hc, ho, hv, normValidity_replicate_true]

theorem foldl_pointPush_some (g : Nat → CoordM) (F : Nat → Option CoordM)
    (l : List Nat) (hF : ∀ i ∈ l, F i = some (g i)) (b : PointBuilderM) :
    l.foldl (fun b i => pointBuilderPush b (F i)) b =
      ⟨b.coords ++ l.map g, b.validity ++ List.replicate l.length true⟩ := by
  induction l generalizing b with
  | nil => simp
  | cons i rest ih =>
    simp only [List.foldl_cons, List.map_cons, List.length_cons]
    rw [hF i (List.mem_cons_self i rest)]
    rw [ih (fun j hj => hF j (List.mem_cons_of_mem _ hj))]
    simp [pointBuilderPush, List.replicate_succ, List.append_assoc]

/-- Downward cast of a multipoint array whose offsets are `0,1,…,n`:
every run has multiplicity 1 and the cast succeeds, reproducing the
coordinates exactly. -/
theorem downcastGo_ok_trivial {B A : Type} (valid empty : Nat → Bool)
    (push : B → Nat → B) (pushNull : B → B) (finish : B → A) (l : List Nat) (b : B)
    (hv : ∀ i ∈ l, valid i = true) (he : ∀ i ∈ l, empty i = false) :
    downcastGo valid empty push pushNull finish l b = .ok (finish (l.foldl push b)) := by
  induction l generalizing b with
  | nil => rfl
  | cons i rest ih =>
    simp only [downcastGo, List.foldl_cons]
    rw [if_pos (hv i (List.mem_cons_self i rest))]
    rw [if_neg (by rw [he i (List.mem_cons_self i rest)]; simp)]
    exact ih _ (fun j hj => hv j (List.mem_cons_of_mem _ hj))
      (fun j hj => he j (List.mem_cons_of_mem _ hj))

/-- Downward cast of a multipoint array whose offsets are `0,1,…,n`:
every run has multiplicity 1 and the cast succeeds, reproducing the
coordinates exactly. -/
theorem castMultiPointToPoint_ones (cs : List CoordM) :
    castMultiPointToPoint ⟨cs, 0 :: offsetsFromRuns 0 (List.replicate cs.length 1), none⟩ =
      .ok ⟨cs, none⟩ := by
  have hlen : offsetsLen (0 :: offsetsFromRuns 0 (List.replicate cs.length 1))
      = cs.length := by
    simp [offsetsLen, offsetsFromRuns_length]
  have hlast : offsetsLast (0 :: offsetsFromRuns 0 (List.replicate cs.length 1))
      = cs.length := by
    rw [offsetsLast_cons_offsetsFromRuns]
    simp
  have hpoint : ∀ i, i < cs.length →
      multiPointPoint ⟨cs, 0 :: offsetsFromRuns 0 (List.replicate cs.length 1), none⟩ i 0
        = some (cs.getD i nullCoord) := by
    intro i hi
    have hrun : multiPointNumPoints
        ⟨cs, 0 :: offsetsFromRuns 0 (List.replicate cs.length 1), none⟩ i = 1 := by
      show runLen (0 :: offsetsFromRuns 0 (List.replicate cs.length 1)) i = 1
      rw [runLen_cons_offsetsFromRuns _ _ _ (by simpa using hi)]
      exact getD_replicate_of_lt _ _ _ _ hi
    unfold multiPointPoint
    rw [if_pos (by omega)]
    have hstart : (0 :: offsetsFromRuns 0 (List.replicate cs.length 1)).getD i 0 = i := by
      rw [getD_cons_offsetsFromRuns _ _ _ (by simp; omega)]
      rw [List.take_replicate]
      simp [Nat.min_eq_left (Nat.le_of_lt hi)]
    rw [hstart]
    simp
  simp only [castMultiPointToPoint, MultiPointArrayM.len]
  rw [if_neg (by rw [hlast, hlen]; omega)]
  rw [hlen]
  rw [downcastGo_ok_trivial]
  · rw [foldl_pointPush_some (fun i => cs.getD i nullCoord)
      (fun i => multiPointPoint ⟨cs, 0 :: offsetsFromRuns 0 (List.replicate cs.length 1), none⟩ i 0)
      (List.range cs.length) (fun i hi => hpoint i (List.mem_range.mp hi)) pointBuilderNew]
    simp only [pointBuilderNew, List.nil_append, List.length_range]
    rw [map_getD_range]
    unfold pointBuilderFinish
    rw [normValidity_replicate_true]
  · intro i hi
    rfl
  · intro i hi
    rw [hpoint i (List.mem_range.mp hi)]
    rfl

/-! ## Claim C2 -/

/-- **C2, counterexample.** The claim quantifies over *every* Point array,
but on a Point array holding one null element the upcast produces a
zero-length run, so the downward cast's guard
(`geom_offsets.last() == len`, i.e. `0 == 1`) fails and the round trip
errors instead of succeeding. -/
theorem c2_counterexample :
    (castMultiPointToPoint (castPointToMultiPoint ⟨[(5, 5)], some [false]⟩)).isErr
      = true := by
  rfl

/-- **C2 (amended).** For every Point array `a` *all of whose elements
are valid*, casting up to MultiPoint gives an array in which every run
has multiplicity 1, and casting back down to Point succeeds and returns
an array with exactly the original coordinate buffer, the original
length, and element-wise the original validity. -/
theorem c2_point_multipoint_roundtrip (a : PointArrayM)
    (h : ∀ i, i < a.len → isValid a.validity i = true) :
    (∀ i, i < (castPointToMultiPoint a).len →
        multiPointNumPoints (castPointToMultiPoint a) i = 1)
    ∧ castMultiPointToPoint (castPointToMultiPoint a) = .ok ⟨a.coords, none⟩
    ∧ (PointArrayM.mk a.coords none).len = a.len
    ∧ (∀ i, i < a.len →
        isValid (PointArrayM.mk a.coords none).validity i = isValid a.validity i) := by
  rw [castPointToMultiPoint_allValid a h]
  refine ⟨?_, ?_, rfl, ?_⟩
  · intro i hi
    replace hi : i < a.len := by
      simpa [MultiPointArrayM.len, offsetsLen, offsetsFromRuns_length] using hi
    show runLen (0 :: offsetsFromRuns 0 (List.replicate a.len 1)) i = 1
    rw [runLen_cons_offsetsFromRuns _ _ _ (by simpa using hi)]
    exact getD_replicate_of_lt _ _ _ _ hi
  · exact castMultiPointToPoint_ones a.coords
  · intro i hi
    rw [h i hi]
    rfl

/-- **C2, witness.** The round trip at a concrete all-valid array. -/
theorem c2_point_multipoint_roundtrip_witness :
    castMultiPointToPoint (castPointToMultiPoint ⟨[(1, 2), (3, 4)], none⟩) =
      .ok ⟨[(1, 2), (3, 4)], none⟩ :=
  (c2_point_multipoint_roundtrip ⟨[(1, 2), (3, 4)], none⟩ (by decide)).2.1

/-! ## Geometry values and the remaining child builders -/

/-- A geometry value, as dispatched by `geo_traits::GeometryType`. -/
inductive GeometryM
  | point (c : CoordM)
  | lineString (cs : List CoordM)
  | polygon (rings : PolygonV)
  | multiPoint (cs : List CoordM)
  | multiLineString (lines : List (List CoordM))
  | multiPolygon (polys : List PolygonV)
  | geometryCollection (geoms : List GeometryM)
  | rect (c0 c1 : CoordM)
  deriving Repr

/-- `LineStringBuilder` state.  Modelled from the spec: not under `src/`;
per §4.3 a pushed line string appends its coordinates and one geometry
run of its coordinate count; null pushes a zero-length run. -/
structure LineStringBuilderM where
  coords : List CoordM
  geomOffsets : List Nat
  validity : List Bool
  deriving Repr, DecidableEq

def lineStringBuilderNew : LineStringBuilderM := ⟨[], offsetsNew, []⟩

def lineStringBuilderPushLineString (b : LineStringBuilderM)
    (v : Option (List CoordM)) : LineStringBuilderM :=
  match v with
  | some cs => ⟨b.coords ++ cs, offsetsPush b.geomOffsets cs.length, b.validity ++ [true]⟩
  | none => ⟨b.coords, offsetsPush b.geomOffsets 0, b.validity ++ [false]⟩

/-- Pushing a single point into a `MultiPointBuilder` as a multipoint of
one point (`MultiPointBuilder::push_multi_point`). Modelled from the
spec: one geometry run holding the multipoint's coordinate count. -/
def multiPointBuilderPushMultiPoint (b : MultiPointBuilderM)
    (v : Option (List CoordM)) : MultiPointBuilderM :=
  match v with
  | some cs => ⟨b.coords ++ cs, offsetsPush b.geomOffsets cs.length, b.validity ++ [true]⟩
  | none => ⟨b.coords, offsetsPush b.geomOffsets 0, b.validity ++ [false]⟩

/-- `MutableMultiLineStringArray` / `MultiLineStringBuilder` state:
coordinates, geometry offsets into the ring level, ring offsets into the
coordinate level, validity (`src/array/multilinestring/mutable.rs`). -/
structure MultiLineStringBuilderM where
  coords : List CoordM
  geomOffsets : List Nat
  ringOffsets : List Nat
  validity : List Bool
  deriving Repr, DecidableEq

def multiLineStringBuilderNew : MultiLineStringBuilderM := ⟨[], offsetsNew, offsetsNew, []⟩

/-- `MultiLineStringBuilder::push_multi_line_string`.  Modelled from the
spec and from `first_pass`/`second_pass` in
`src/array/multilinestring/mutable.rs`: a value pushes one geometry run
of `num_lines`, one ring run per line holding its coordinate count, and
the coordinates; null pushes a zero-length geometry run only. -/
def multiLineStringBuilderPushMultiLineString (b : MultiLineStringBuilderM)
    (v : Option (List (List CoordM))) : MultiLineStringBuilderM :=
  match v with
  | some lines =>
      ⟨b.coords ++ lines.flatten,
       offsetsPush b.geomOffsets lines.length,
       lines.foldl (fun ro line => offsetsPush ro line.length) b.ringOffsets,
       b.validity ++ [true]⟩
  | none => ⟨b.coords, offsetsPush b.geomOffsets 0, b.ringOffsets, b.validity ++ [false]⟩

/-- `MultiLineStringBuilder::push_line_string`: one line string pushed as
a multilinestring with a single line. -/
def multiLineStringBuilderPushLineString (b : MultiLineStringBuilderM)
    (v : Option (List CoordM)) : MultiLineStringBuilderM :=
  match v with
  | some cs => multiLineStringBuilderPushMultiLineString b (some [cs])
  | none => multiLineStringBuilderPushMultiLineString b none

/-- `MultiPolygonBuilder` state (three offset levels).  Modelled from the
spec: not under `src/`. -/
structure MultiPolygonBuilderM where
  coords : List CoordM
  geomOffsets : List Nat
  polygonOffsets : List Nat
  ringOffsets : List Nat
  validity : List Bool
  deriving Repr, DecidableEq

def multiPolygonBuilderNew : MultiPolygonBuilderM :=
  ⟨[], offsetsNew, offsetsNew, offsetsNew, []⟩

/-- `MultiPolygonBuilder::push_multi_polygon`: one geometry run of
`num_polygons`, one polygon run per polygon of its ring count, one ring
run per ring of its coordinate count, plus the coordinates. -/
def multiPolygonBuilderPushMultiPolygon (b : MultiPolygonBuilderM)
    (v : Option (List PolygonV)) : MultiPolygonBuilderM :=
  match v with
  | some polys =>
      ⟨b.coords ++ (polys.map List.flatten).flatten,
       offsetsPush b.geomOffsets polys.length,
       polys.foldl (fun po rings => offsetsPush po rings.length) b.polygonOffsets,
       (polys.flatten).foldl (fun ro ring => offsetsPush ro ring.length) b.ringOffsets,
       b.validity ++ [true]⟩
  | none =>
      ⟨b.coords, offsetsPush b.geomOffsets 0, b.polygonOffsets, b.ringOffsets,
       b.validity ++ [false]⟩

/-- `MultiPolygonBuilder::push_polygon`: a polygon pushed as a
multipolygon with a single polygon. -/
def multiPolygonBuilderPushPolygon (b : MultiPolygonBuilderM)
    (v : Option PolygonV) : MultiPolygonBuilderM :=
  match v with
  | some rings => multiPolygonBuilderPushMultiPolygon b (some [rings])
  | none => multiPolygonBuilderPushMultiPolygon b none

/-! ## The Mixed/union geometry builder (`src/array/mixed/builder.rs`) -/

/-- `MixedGeometryBuilder`: a `types` tag buffer, six child builders, one
offset counter per child, and the parent `offsets` buffer.  Tags follow
`default_ordering`: 0 Point, 1 LineString, 2 Polygon, 3 MultiPoint,
4 MultiLineString, 5 MultiPolygon. -/
structure MixedBuilderM where
  types : List Nat
  points : PointBuilderM
  lineStrings : LineStringBuilderM
  polygons : PolygonBuilderM
  multiPoints : MultiPointBuilderM
  multiLineStrings : MultiLineStringBuilderM
  multiPolygons : MultiPolygonBuilderM
  pointCounter : Nat
  lineStringCounter : Nat
  polygonCounter : Nat
  multiPointCounter : Nat
  multiLineStringCounter : Nat
  multiPolygonCounter : Nat
  offsets : List Nat
  deriving Repr, DecidableEq

/-- `MixedGeometryBuilder::new`. -/
def mixedBuilderNew : MixedBuilderM :=
  ⟨[], pointBuilderNew, lineStringBuilderNew, polygonBuilderNew,
   multiPointBuilderNew, multiLineStringBuilderNew, multiPolygonBuilderNew,
   0, 0, 0, 0, 0, 0, []⟩

/-- `MixedGeometryBuilder::push_point`. -/
def mixedPushPoint (b : MixedBuilderM) (v : Option CoordM) : MixedBuilderM :=
  { b with
    offsets := b.offsets ++ [b.pointCounter],
    pointCounter := b.pointCounter + 1,
    types := b.types ++ [0],
    points := pointBuilderPush b.points v }

/-- `MixedGeometryBuilder::push_point_as_multi_point`. -/
def mixedPushPointAsMultiPoint (b : MixedBuilderM) (v : Option CoordM) : MixedBuilderM :=
  { b with
    offsets := b.offsets ++ [b.multiPointCounter],
    multiPointCounter := b.multiPointCounter + 1,
    types := b.types ++ [3],
    multiPoints := multiPointBuilderPushPoint b.multiPoints v }

/-- `MixedGeometryBuilder::push_line_string`. -/
def mixedPushLineString (b : MixedBuilderM) (v : Option (List CoordM)) : MixedBuilderM :=
  { b with
    offsets := b.offsets ++ [b.lineStringCounter],
    lineStringCounter := b.lineStringCounter + 1,
    types := b.types ++ [1],
    lineStrings := lineStringBuilderPushLineString b.lineStrings v }

/-- `MixedGeometryBuilder::push_line_string_as_multi_line_string`. -/
def mixedPushLineStringAsMultiLineString (b : MixedBuilderM)
    (v : Option (List CoordM)) : MixedBuilderM :=
  { b with
    offsets := b.offsets ++ [b.multiLineStringCounter],
    multiLineStringCounter := b.multiLineStringCounter + 1,
    types := b.types ++ [4],
    multiLineStrings := multiLineStringBuilderPushLineString b.multiLineStrings v }

/-- `MixedGeometryBuilder::push_polygon`. -/
def mixedPushPolygon (b : MixedBuilderM) (v : Option PolygonV) : MixedBuilderM :=
  { b with
    offsets := b.offsets ++ [b.polygonCounter],
    polygonCounter := b.polygonCounter + 1,
    types := b.types ++ [2],
    polygons := polygonBuilderPushPolygon b.polygons v }

/-- `MixedGeometryBuilder::push_polygon_as_multi_polygon`. -/
def mixedPushPolygonAsMultiPolygon (b : MixedBuilderM) (v : Option PolygonV) : MixedBuilderM :=
  { b with
    offsets := b.offsets ++ [b.multiPolygonCounter],
    multiPolygonCounter := b.multiPolygonCounter + 1,
    types := b.types ++ [5],
    multiPolygons := multiPolygonBuilderPushPolygon b.multiPolygons v }

/-- `MixedGeometryBuilder::push_multi_point`. -/
def mixedPushMultiPoint (b : MixedBuilderM) (v : Option (List CoordM)) : MixedBuilderM :=
  { b with
    offsets := b.offsets ++ [b.multiPointCounter],
    multiPointCounter := b.multiPointCounter + 1,
    types := b.types ++ [3],
    multiPoints := multiPointBuilderPushMultiPoint b.multiPoints v }

/-- `MixedGeometryBuilder::push_multi_line_string`. -/
def mixedPushMultiLineString (b : MixedBuilderM)
    (v : Option (List (List CoordM))) : MixedBuilderM :=
  { b with
    offsets := b.offsets ++ [b.multiLineStringCounter],
    multiLineStringCounter := b.multiLineStringCounter + 1,
    types := b.types ++ [4],
    multiLineStrings := multiLineStringBuilderPushMultiLineString b.multiLineStrings v }

/-- `MixedGeometryBuilder::push_multi_polygon`. -/
def mixedPushMultiPolygon (b : MixedBuilderM)
    (v : Option (List PolygonV)) : MixedBuilderM :=
  { b with
    offsets := b.offsets ++ [b.multiPolygonCounter],
    multiPolygonCounter := b.multiPolygonCounter + 1,
    types := b.types ++ [5],
    multiPolygons := multiPolygonBuilderPushMultiPolygon b.multiPolygons v }

/-- `MixedGeometryBuilder::push_geometry`: dispatch on the geometry type.
A `GeometryCollection` hits `panic!("nested geometry collections not
supported")`, a `Rect` hits the `_ => todo!()` arm, and a `None` value
hits `todo!("push null geometry")` — all three abort the process. -/
def mixedPushGeometry (b : MixedBuilderM) (v : Option GeometryM) :
    CastResult MixedBuilderM :=
  match v with
  | some g =>
    match g with
    | .point c => .ok (mixedPushPoint b (some c))
    | .lineString cs => .ok (mixedPushLineString b (some cs))
    | .polygon rings => .ok (mixedPushPolygon b (some rings))
    | .multiPoint cs => .ok (mixedPushMultiPoint b (some cs))
    | .multiLineString lines => .ok (mixedPushMultiLineString b (some lines))
    | .multiPolygon polys => .ok (mixedPushMultiPolygon b (some polys))
    | .geometryCollection _ => .panic
    | .rect _ _ => .panic
  | none => .panic

/-- The six non-collection geometry constructors, the "primitive" types
the Mixed builder supports. -/
def primitiveGeometry : GeometryM → Bool
  | .geometryCollection _ => false
  | .rect _ _ => false
  | _ => true

/-! ## Claim C5 -/

/-- **C5, counterexample.** `MixedGeometryBuilder::push_geometry` aborts
the process on a GeometryCollection input
(`panic!("nested geometry collections not supported")`) and on a null
input (`todo!("push null geometry")`), contradicting the claim that for
every input value it returns `Ok` or a recoverable typed `Err`. -/
theorem c5_counterexample :
    mixedPushGeometry mixedBuilderNew (some (.geometryCollection [])) = .panic
    ∧ mixedPushGeometry mixedBuilderNew none = .panic :=
  ⟨rfl, rfl⟩

/-- **C5 (amended).** `push_geometry` returns `Ok` for every non-null
geometry of one of the six primitive types (Point, LineString, Polygon,
MultiPoint, MultiLineString, MultiPolygon); it panics (aborts the
process) on a GeometryCollection, on a Rect (the `todo!()` arm) and on a
null geometry. -/
theorem c5_push_geometry_behaviour (b : MixedBuilderM) (g : GeometryM)
    (gs : List GeometryM) (c0 c1 : CoordM) :
    (primitiveGeometry g = true → (mixedPushGeometry b (some g)).isOk = true)
    ∧ mixedPushGeometry b (some (.geometryCollection gs)) = .panic
    ∧ mixedPushGeometry b (some (.rect c0 c1)) = .panic
    ∧ mixedPushGeometry b none = .panic := by
  refine ⟨fun h => ?_, rfl, rfl, rfl⟩
  cases g <;> simp_all [primitiveGeometry, mixedPushGeometry, CastResult.isOk]

/-- **C5, witness.** Pushing a concrete primitive point succeeds. -/
theorem c5_push_geometry_behaviour_witness :
    (mixedPushGeometry mixedBuilderNew (some (.point (1, 2)))).isOk = true :=
  (c5_push_geometry_behaviour mixedBuilderNew (.point (1, 2)) [] (0, 0) (0, 0)).1 rfl

/-! ## Claim C8: the Mixed builder invariant -/

/-- The atomic push operations of the Mixed builder (what
`push_geometry` and the extend helpers dispatch to). -/
inductive MixedPushOp
  | point (v : Option CoordM)
  | pointAsMultiPoint (v : Option CoordM)
  | lineString (v : Option (List CoordM))
  | lineStringAsMultiLineString (v : Option (List CoordM))
  | polygon (v : Option PolygonV)
  | polygonAsMultiPolygon (v : Option PolygonV)
  | multiPoint (v : Option (List CoordM))
  | multiLineString (v : Option (List (List CoordM)))
  | multiPolygon (v : Option (List PolygonV))

def mixedApplyOp (b : MixedBuilderM) : MixedPushOp → MixedBuilderM
  | .point v => mixedPushPoint b v
  | .pointAsMultiPoint v => mixedPushPointAsMultiPoint b v
  | .lineString v => mixedPushLineString b v
  | .lineStringAsMultiLineString v => mixedPushLineStringAsMultiLineString b v
  | .polygon v => mixedPushPolygon b v
  | .polygonAsMultiPolygon v => mixedPushPolygonAsMultiPolygon b v
  | .multiPoint v => mixedPushMultiPoint b v
  | .multiLineString v => mixedPushMultiLineString b v
  | .multiPolygon v => mixedPushMultiPolygon b v

def mixedApplyOps (ops : List MixedPushOp) : MixedBuilderM :=
  ops.foldl mixedApplyOp mixedBuilderNew

/-- Number of logical elements in the child builder selected by a tag. -/
def mixedChildLen (b : MixedBuilderM) (tag : Nat) : Nat :=
  if tag = 0 then b.points.validity.length
  else if tag = 1 then b.lineStrings.validity.length
  else if tag = 2 then b.polygons.validity.length
  else if tag = 3 then b.multiPoints.validity.length
  else if tag = 4 then b.multiLineStrings.validity.length
  else if tag = 5 then b.multiPolygons.validity.length
  else 0

/-- Each child counter equals its child builder's element count. -/
def MixedSync (b : MixedBuilderM) : Prop :=
  b.pointCounter = b.points.validity.length
  ∧ b.lineStringCounter = b.lineStrings.validity.length
  ∧ b.polygonCounter = b.polygons.validity.length
  ∧ b.multiPointCounter = b.multiPoints.validity.length
  ∧ b.multiLineStringCounter = b.multiLineStrings.validity.length
  ∧ b.multiPolygonCounter = b.multiPolygons.validity.length

/-- The full builder invariant: counters in sync,
`offsets.len == types.len`, and every offset a valid index into the
child selected by its tag. -/
def MixedInv (b : MixedBuilderM) : Prop :=
  MixedSync b ∧ b.offsets.length = b.types.length ∧
    ∀ i, i < b.types.length →
      b.offsets.getD i 0 < mixedChildLen b (b.types.getD i 6)

theorem pointBuilderPush_validity_length (p : PointBuilderM) (v : Option CoordM) :
    (pointBuilderPush p v).validity.length = p.validity.length + 1 := by
  cases v <;> simp [pointBuilderPush]

theorem lineStringBuilderPush_validity_length (p : LineStringBuilderM)
    (v : Option (List CoordM)) :
    (lineStringBuilderPushLineString p v).validity.length = p.validity.length + 1 := by
  cases v <;> simp [lineStringBuilderPushLineString]

theorem polygonBuilderPush_validity_length (p : PolygonBuilderM) (v : Option PolygonV) :
    (polygonBuilderPushPolygon p v).validity.length = p.validity.length + 1 := by
  cases v <;> simp [polygonBuilderPushPolygon]

theorem multiPointBuilderPushPoint_validity_length (p : MultiPointBuilderM)
    (v : Option CoordM) :
    (multiPointBuilderPushPoint p v).validity.length = p.validity.length + 1 := by
  cases v <;> simp [multiPointBuilderPushPoint]

theorem multiPointBuilderPushMultiPoint_validity_length (p : MultiPointBuilderM)
    (v : Option (List CoordM)) :
    (multiPointBuilderPushMultiPoint p v).validity.length = p.validity.length + 1 := by
  cases v <;> simp [multiPointBuilderPushMultiPoint]

theorem multiLineStringBuilderPushMultiLineString_validity_length
    (p : MultiLineStringBuilderM) (v : Option (List (List CoordM))) :
    (multiLineStringBuilderPushMultiLineString p v).validity.length
      = p.validity.length + 1 := by
  cases v <;> simp [multiLineStringBuilderPushMultiLineString]

theorem multiLineStringBuilderPushLineString_validity_length
    (p : MultiLineStringBuilderM) (v : Option (List CoordM)) :
    (multiLineStringBuilderPushLineString p v).validity.length
      = p.validity.length + 1 := by
  cases v <;> simp [multiLineStringBuilderPushLineString,
    multiLineStringBuilderPushMultiLineString]

theorem multiPolygonBuilderPushMultiPolygon_validity_length
    (p : MultiPolygonBuilderM) (v : Option (List PolygonV)) :
    (multiPolygonBuilderPushMultiPolygon p v).validity.length
      = p.validity.length + 1 := by
  cases v <;> simp [multiPolygonBuilderPushMultiPolygon]

theorem multiPolygonBuilderPushPolygon_validity_length
    (p : MultiPolygonBuilderM) (v : Option PolygonV) :
    (multiPolygonBuilderPushPolygon p v).validity.length
      = p.validity.length + 1 := by
  cases v <;> simp [multiPolygonBuilderPushPolygon,
    multiPolygonBuilderPushMultiPolygon]

/-- Generic step: appending tag `t` with offset `childLen b t`, while the
selected child grows by one and no child shrinks, preserves the
index-validity invariant. -/
theorem mixedInv_extend (b b' : MixedBuilderM) (t : Nat)
    (htypes : b'.types = b.types ++ [t])
    (hoffs : b'.offsets = b.offsets ++ [mixedChildLen b t])
    (hgrow : mixedChildLen b t < mixedChildLen b' t)
    (hmono : ∀ tag, mixedChildLen b tag ≤ mixedChildLen b' tag)
    (hlen : b.offsets.length = b.types.length)
    (hbound : ∀ i, i < b.types.length →
      b.offsets.getD i 0 < mixedChildLen b (b.types.getD i 6)) :
    b'.offsets.length = b'.types.length ∧
      ∀ i, i < b'.types.length →
        b'.offsets.getD i 0 < mixedChildLen b' (b'.types.getD i 6) := by
  constructor
  · rw [htypes, hoffs]
    simp [hlen]
  · intro i hi
    rw [htypes] at hi
    simp only [List.length_append, List.length_cons, List.length_nil] at hi
    by_cases hlt : i < b.types.length
    · rw [htypes, hoffs, List.getD_append _ _ _ _ (by omega),
        List.getD_append _ _ _ _ hlt]
      exact lt_of_lt_of_le (hbound i hlt) (hmono _)
    · have hieq : i = b.types.length := by omega
      subst hieq
      rw [htypes, hoffs,
        List.getD_append_right _ _ _ _ (by omega),
        List.getD_append_right _ _ _ _ (le_refl _)]
      rw [hlen]
      simp only [Nat.sub_self, List.getD_cons_zero]
      exact hgrow

/-- Every atomic push preserves the full invariant and appends exactly
one element. -/
theorem mixedInv_step (b : MixedBuilderM) (op : MixedPushOp) (h : MixedInv b) :
    MixedInv (mixedApplyOp b op) ∧
      (mixedApplyOp b op).types.length = b.types.length + 1 := by
  obtain ⟨⟨h0, h1, h2, h3, h4, h5⟩, hlen, hbound⟩ := h
  cases op with
  | point v =>
    have hg : mixedChildLen (mixedPushPoint b v) 0 = mixedChildLen b 0 + 1 := by
      simp [mixedChildLen, mixedPushPoint, pointBuilderPush_validity_length]
    have hm : ∀ tag, mixedChildLen b tag ≤ mixedChildLen (mixedPushPoint b v) tag := by
      intro tag
      by_cases ht : tag = 0
      · subst ht; omega
      · simp [mixedChildLen, mixedPushPoint, ht]
    have hext := mixedInv_extend b (mixedPushPoint b v) 0 rfl
      (by simp [mixedPushPoint, mixedChildLen, h0]) (by omega) hm hlen hbound
    refine ⟨⟨⟨?_, h1, h2, h3, h4, h5⟩, hext⟩, by simp [mixedApplyOp, mixedPushPoint]⟩
    show b.pointCounter + 1 = (pointBuilderPush b.points v).validity.length
    rw [pointBuilderPush_validity_length, h0]
  | pointAsMultiPoint v =>
    have hg : mixedChildLen (mixedPushPointAsMultiPoint b v) 3 = mixedChildLen b 3 + 1 := by
      simp [mixedChildLen, mixedPushPointAsMultiPoint, multiPointBuilderPushPoint_validity_length]
    have hm : ∀ tag, mixedChildLen b tag ≤ mixedChildLen (mixedPushPointAsMultiPoint b v) tag := by
      intro tag
      by_cases ht : tag = 3
      · subst ht; omega
      · simp [mixedChildLen, mixedPushPointAsMultiPoint, ht]
    have hext := mixedInv_extend b (mixedPushPointAsMultiPoint b v) 3 rfl
      (by simp [mixedPushPointAsMultiPoint, mixedChildLen, h3]) (by omega) hm hlen hbound
    refine ⟨⟨⟨h0, h1, h2, ?_, h4, h5⟩, hext⟩, by simp [mixedApplyOp, mixedPushPointAsMultiPoint]⟩
    show b.multiPointCounter + 1 = (multiPointBuilderPushPoint b.multiPoints v).validity.length
    rw [multiPointBuilderPushPoint_validity_length, h3]
  | lineString v =>
    have hg : mixedChildLen (mixedPushLineString b v) 1 = mixedChildLen b 1 + 1 := by
      simp [mixedChildLen, mixedPushLineString, lineStringBuilderPush_validity_length]
    have hm : ∀ tag, mixedChildLen b tag ≤ mixedChildLen (mixedPushLineString b v) tag := by
      intro tag
      by_cases ht : tag = 1
      · subst ht; omega
      · simp [mixedChildLen, mixedPushLineString, ht]
    have hext := mixedInv_extend b (mixedPushLineString b v) 1 rfl
      (by simp [mixedPushLineString, mixedChildLen, h1]) (by omega) hm hlen hbound
    refine ⟨⟨⟨h0, ?_, h2, h3, h4, h5⟩, hext⟩, by simp [mixedApplyOp, mixedPushLineString]⟩
    show b.lineStringCounter + 1 = (lineStringBuilderPushLineString b.lineStrings v).validity.length
    rw [lineStringBuilderPush_validity_length, h1]
  | lineStringAsMultiLineString v =>
    have hg : mixedChildLen (mixedPushLineStringAsMultiLineString b v) 4 = mixedChildLen b 4 + 1 := by
      simp [mixedChildLen, mixedPushLineStringAsMultiLineString, multiLineStringBuilderPushLineString_validity_length]
    have hm : ∀ tag, mixedChildLen b tag ≤ mixedChildLen (mixedPushLineStringAsMultiLineString b v) tag := by
      intro tag
      by_cases ht : tag = 4
      · subst ht; omega
      · simp [mixedChildLen, mixedPushLineStringAsMultiLineString, ht]
    have hext := mixedInv_extend b (mixedPushLineStringAsMultiLineString b v) 4 rfl
      (by simp [mixedPushLineStringAsMultiLineString, mixedChildLen, h4]) (by omega) hm hlen hbound
    refine ⟨⟨⟨h0, h1, h2, h3, ?_, h5⟩, hext⟩, by simp [mixedApplyOp, mixedPushLineStringAsMultiLineString]⟩
    show b.multiLineStringCounter + 1 = (multiLineStringBuilderPushLineString b.multiLineStrings v).validity.length
    rw [multiLineStringBuilderPushLineString_validity_length, h4]
  | polygon v =>
    have hg : mixedChildLen (mixedPushPolygon b v) 2 = mixedChildLen b 2 + 1 := by
      simp [mixedChildLen, mixedPushPolygon, polygonBuilderPush_validity_length]
    have hm : ∀ tag, mixedChildLen b tag ≤ mixedChildLen (mixedPushPolygon b v) tag := by
      intro tag
      by_cases ht : tag = 2
      · subst ht; omega
      · simp [mixedChildLen, mixedPushPolygon, ht]
    have hext := mixedInv_extend b (mixedPushPolygon b v) 2 rfl
      (by simp [mixedPushPolygon, mixedChildLen, h2]) (by omega) hm hlen hbound
    refine ⟨⟨⟨h0, h1, ?_, h3, h4, h5⟩, hext⟩, by simp [mixedApplyOp, mixedPushPolygon]⟩
    show b.polygonCounter + 1 = (polygonBuilderPushPolygon b.polygons v).validity.length
    rw [polygonBuilderPush_validity_length, h2]
  | polygonAsMultiPolygon v =>
    have hg : mixedChildLen (mixedPushPolygonAsMultiPolygon b v) 5 = mixedChildLen b 5 + 1 := by
      simp [mixedChildLen, mixedPushPolygonAsMultiPolygon, multiPolygonBuilderPushPolygon_validity_length]
    have hm : ∀ tag, mixedChildLen b tag ≤ mixedChildLen (mixedPushPolygonAsMultiPolygon b v) tag := by
      intro tag
      by_cases ht : tag = 5
      · subst ht; omega
      · simp [mixedChildLen, mixedPushPolygonAsMultiPolygon, ht]
    have hext := mixedInv_extend b (mixedPushPolygonAsMultiPolygon b v) 5 rfl
      (by simp [mixedPushPolygonAsMultiPolygon, mixedChildLen, h5]) (by omega) hm hlen hbound
    refine ⟨⟨⟨h0, h1, h2, h3, h4, ?_⟩, hext⟩, by simp [mixedApplyOp, mixedPushPolygonAsMultiPolygon]⟩
    show b.multiPolygonCounter + 1 = (multiPolygonBuilderPushPolygon b.multiPolygons v).validity.length
    rw [multiPolygonBuilderPushPolygon_validity_length, h5]
  | multiPoint v =>
    have hg : mixedChildLen (mixedPushMultiPoint b v) 3 = mixedChildLen b 3 + 1 := by
      simp [mixedChildLen, mixedPushMultiPoint, multiPointBuilderPushMultiPoint_validity_length]
    have hm : ∀ tag, mixedChildLen b tag ≤ mixedChildLen (mixedPushMultiPoint b v) tag := by
      intro tag
      by_cases ht : tag = 3
      · subst ht; omega
      · simp [mixedChildLen, mixedPushMultiPoint, ht]
    have hext := mixedInv_extend b (mixedPushMultiPoint b v) 3 rfl
      (by simp [mixedPushMultiPoint, mixedChildLen, h3]) (by omega) hm hlen hbound
    refine ⟨⟨⟨h0, h1, h2, ?_, h4, h5⟩, hext⟩, by simp [mixedApplyOp, mixedPushMultiPoint]⟩
    show b.multiPointCounter + 1 = (multiPointBuilderPushMultiPoint b.multiPoints v).validity.length
    rw [multiPointBuilderPushMultiPoint_validity_length, h3]
  | multiLineString v =>
    have hg : mixedChildLen (mixedPushMultiLineString b v) 4 = mixedChildLen b 4 + 1 := by
      simp [mixedChildLen, mixedPushMultiLineString, multiLineStringBuilderPushMultiLineString_validity_length]
    have hm : ∀ tag, mixedChildLen b tag ≤ mixedChildLen (mixedPushMultiLineString b v) tag := by
      intro tag
      by_cases ht : tag = 4
      · subst ht; omega
      · simp [mixedChildLen, mixedPushMultiLineString, ht]
    have hext := mixedInv_extend b (mixedPushMultiLineString b v) 4 rfl
      (by simp [mixedPushMultiLineString, mixedChildLen, h4]) (by omega) hm hlen hbound
    refine ⟨⟨⟨h0, h1, h2, h3, ?_, h5⟩, hext⟩, by simp [mixedApplyOp, mixedPushMultiLineString]⟩
    show b.multiLineStringCounter + 1 = (multiLineStringBuilderPushMultiLineString b.multiLineStrings v).validity.length
    rw [multiLineStringBuilderPushMultiLineString_validity_length, h4]
  | multiPolygon v =>
    have hg : mixedChildLen (mixedPushMultiPolygon b v) 5 = mixedChildLen b 5 + 1 := by
      simp [mixedChildLen, mixedPushMultiPolygon, multiPolygonBuilderPushMultiPolygon_validity_length]
    have hm : ∀ tag, mixedChildLen b tag ≤ mixedChildLen (mixedPushMultiPolygon b v) tag := by
      intro tag
      by_cases ht : tag = 5
      · subst ht; omega
      · simp [mixedChildLen, mixedPushMultiPolygon, ht]
    have hext := mixedInv_extend b (mixedPushMultiPolygon b v) 5 rfl
      (by simp [mixedPushMultiPolygon, mixedChildLen, h5]) (by omega) hm hlen hbound
    refine ⟨⟨⟨h0, h1, h2, h3, h4, ?_⟩, hext⟩, by simp [mixedApplyOp, mixedPushMultiPolygon]⟩
    show b.multiPolygonCounter + 1 = (multiPolygonBuilderPushMultiPolygon b.multiPolygons v).validity.length
    rw [multiPolygonBuilderPushMultiPolygon_validity_length, h5]

theorem mixedInv_new : MixedInv mixedBuilderNew := by
  refine ⟨⟨rfl, rfl, rfl, rfl, rfl, rfl⟩, rfl, ?_⟩
  intro i hi
  simp [mixedBuilderNew] at hi

theorem mixedInv_foldl (ops : List MixedPushOp) (b : MixedBuilderM) (h : MixedInv b) :
    MixedInv (ops.foldl mixedApplyOp b) ∧
      (ops.foldl mixedApplyOp b).types.length = b.types.length + ops.length := by
  induction ops generalizing b with
  | nil => simpa using h
  | cons op rest ih =>
    obtain ⟨hstep, hgrow⟩ := mixedInv_step b op h
    obtain ⟨hrest, hlen⟩ := ih (mixedApplyOp b op) hstep
    refine ⟨hrest, ?_⟩
    simp only [List.foldl_cons] at *
    rw [hlen, hgrow]
    simp only [List.length_cons]
    omega

/-- **C8 (confirmed).** After any sequence of push operations on a
`MixedGeometryBuilder` (starting empty), `types.len() == offsets.len()`
equals the number of elements pushed, and every `offsets[i]` is a valid
index — strictly less than the length — of the child builder selected by
`types[i]`. -/
theorem c8_mixed_builder_invariant (ops : List MixedPushOp) :
    (mixedApplyOps ops).types.length = ops.length
    ∧ (mixedApplyOps ops).offsets.length = ops.length
    ∧ ∀ i, i < ops.length →
        (mixedApplyOps ops).offsets.getD i 0
          < mixedChildLen (mixedApplyOps ops) ((mixedApplyOps ops).types.getD i 6) := by
  obtain ⟨⟨hsync, hlen, hbound⟩, htot⟩ := mixedInv_foldl ops mixedBuilderNew mixedInv_new
  have htypes : (mixedApplyOps ops).types.length = ops.length := by
    unfold mixedApplyOps
    rw [htot]
    simp [mixedBuilderNew]
  refine ⟨htypes, ?_, ?_⟩
  · unfold mixedApplyOps
    rw [hlen]
    rw [show (List.foldl mixedApplyOp mixedBuilderNew ops).types.length = ops.length
      from htypes]
  · intro i hi
    exact hbound i (by rw [show (List.foldl mixedApplyOp mixedBuilderNew ops).types.length
      = ops.length from htypes]; exact hi)

/-- **C8, witness.** The invariant instantiated at a concrete two-push
sequence. -/
theorem c8_mixed_builder_invariant_witness :
    (mixedApplyOps [MixedPushOp.point (some (1, 2)),
        MixedPushOp.multiPoint (some [(3, 4), (5, 6)])]).types.length = 2
    ∧ (mixedApplyOps [MixedPushOp.point (some (1, 2)),
        MixedPushOp.multiPoint (some [(3, 4), (5, 6)])]).offsets.getD 1 0
        < mixedChildLen
            (mixedApplyOps [MixedPushOp.point (some (1, 2)),
              MixedPushOp.multiPoint (some [(3, 4), (5, 6)])])
            ((mixedApplyOps [MixedPushOp.point (some (1, 2)),
              MixedPushOp.multiPoint (some [(3, 4), (5, 6)])]).types.getD 1 6) := by
  have h := c8_mixed_builder_invariant
    [MixedPushOp.point (some (1, 2)), MixedPushOp.multiPoint (some [(3, 4), (5, 6)])]
  exact ⟨h.1, h.2.2 1 (by decide)⟩

/-! ## Upcasts of a Point array to Mixed and GeometryCollection -/

/-- The `Mixed(_)` arm of `cast_point_array`:
`array.iter().for_each(|x| builder.push_point(x.as_ref()))`; `finish` is
the O(1) move of the builder's buffers into the array. -/
def castPointToMixed (a : PointArrayM) : MixedBuilderM :=
  a.iter.foldl mixedPushPoint mixedBuilderNew

/-- `GeometryCollectionBuilder` state: geometry offsets over an inner
Mixed builder, plus validity. -/
structure GeometryCollectionBuilderM where
  geomOffsets : List Nat
  geoms : MixedBuilderM
  validity : List Bool
  deriving Repr, DecidableEq

def gcBuilderNew : GeometryCollectionBuilderM := ⟨offsetsNew, mixedBuilderNew, []⟩

/-- `GeometryCollectionBuilder::push_point`.  Modelled from the spec: the
geometry-collection builder is not under `src/`; per spec §4.3 a point
becomes a collection with one member (a length-1 run over the inner
Mixed child) while a null pushes a zero-length run only. -/
def gcBuilderPushPoint (b : GeometryCollectionBuilderM) (v : Option CoordM) :
    GeometryCollectionBuilderM :=
  match v with
  | some c =>
      ⟨offsetsPush b.geomOffsets 1, mixedPushPoint b.geoms (some c), b.validity ++ [true]⟩
  | none => ⟨offsetsPush b.geomOffsets 0, b.geoms, b.validity ++ [false]⟩

/-- A finished GeometryCollection array: geometry offsets over the inner
Mixed array plus normalised validity. -/
structure GeometryCollectionArrayM where
  geomOffsets : List Nat
  geoms : MixedBuilderM
  validity : Option (List Bool)
  deriving Repr, DecidableEq

def gcBuilderFinish (b : GeometryCollectionBuilderM) : GeometryCollectionArrayM :=
  ⟨b.geomOffsets, b.geoms, normValidity b.validity⟩

/-- The `GeometryCollection(_)` arm of `cast_point_array`:
`array.iter().try_for_each(|x| builder.push_point(x.as_ref(), false))`. -/
def castPointToGeometryCollection (a : PointArrayM) : GeometryCollectionArrayM :=
  gcBuilderFinish (a.iter.foldl gcBuilderPushPoint gcBuilderNew)

/-! ### Fold specifications for the upcasts -/

theorem pointBuilderFold_spec (l : List (Option CoordM)) (b : PointBuilderM) :
    l.foldl pointBuilderPush b =
      ⟨b.coords ++ l.map (fun v => v.getD nullCoord), b.validity ++ l.map (·.isSome)⟩ := by
  induction l generalizing b with
  | nil => simp
  | cons v rest ih =>
    cases v <;> simp [pointBuilderPush, ih, List.append_assoc]

theorem mixedPointFold_spec (l : List (Option CoordM)) (b : MixedBuilderM) :
    (l.foldl mixedPushPoint b).types = b.types ++ List.replicate l.length 0
    ∧ (l.foldl mixedPushPoint b).offsets
        = b.offsets ++ (List.range l.length).map (b.pointCounter + ·)
    ∧ (l.foldl mixedPushPoint b).points = l.foldl pointBuilderPush b.points
    ∧ (l.foldl mixedPushPoint b).pointCounter = b.pointCounter + l.length := by
  induction l generalizing b with
  | nil => simp
  | cons v rest ih =>
    obtain ⟨ht, ho, hp, hc⟩ := ih (mixedPushPoint b v)
    refine ⟨?_, ?_, ?_, ?_⟩
    · rw [List.foldl_cons, ht]
      simp [mixedPushPoint, List.replicate_succ, List.append_assoc]
    · rw [List.foldl_cons, ho]
      show (b.offsets ++ [b.pointCounter])
          ++ (List.range rest.length).map (fun x => (b.pointCounter + 1) + x)
        = b.offsets ++ (List.range (rest.length + 1)).map (fun x => b.pointCounter + x)
      rw [List.range_succ_eq_map, List.map_cons, List.map_map, List.append_assoc]
      have hmap : (List.range rest.length).map ((fun x => b.pointCounter + x) ∘ (· + 1))
          = (List.range rest.length).map (fun x => (b.pointCounter + 1) + x) := by
        apply List.map_congr_left
        intro i _
        simp only [Function.comp_apply]
        omega
      rw [hmap]
      simp
    · rw [List.foldl_cons, hp]
      rfl
    · rw [List.foldl_cons, hc]
      show (b.pointCounter + 1) + rest.length = b.pointCounter + (rest.length + 1)
      omega

theorem gcPointFold_spec (l : List (Option CoordM)) (b : GeometryCollectionBuilderM) :
    (l.foldl gcBuilderPushPoint b).geomOffsets
        = b.geomOffsets ++ offsetsFromRuns (offsetsLast b.geomOffsets)
            (l.map fun v => if v.isSome then 1 else 0)
    ∧ (l.foldl gcBuilderPushPoint b).validity = b.validity ++ l.map (·.isSome) := by
  induction l generalizing b with
  | nil => simp [offsetsFromRuns]
  | cons v rest ih =>
    obtain ⟨ho, hv⟩ := ih (gcBuilderPushPoint b v)
    cases v with
    | some c =>
      constructor
      · rw [List.foldl_cons, ho]
        show (offsetsPush b.geomOffsets 1)
            ++ offsetsFromRuns (offsetsLast (offsetsPush b.geomOffsets 1))
              (rest.map fun v => if v.isSome then 1 else 0) = _
        rw [offsetsLast_push]
        simp [offsetsPush, offsetsFromRuns, List.append_assoc]
      · rw [List.foldl_cons, hv]
        simp [gcBuilderPushPoint, List.append_assoc]
    | none =>
      constructor
      · rw [List.foldl_cons, ho]
        show (offsetsPush b.geomOffsets 0)
            ++ offsetsFromRuns (offsetsLast (offsetsPush b.geomOffsets 0))
              (rest.map fun v => if v.isSome then 1 else 0) = _
        rw [offsetsLast_push]
        simp [offsetsPush, offsetsFromRuns, List.append_assoc]
      · rw [List.foldl_cons, hv]
        simp [gcBuilderPushPoint, List.append_assoc]

theorem iter_isSome (a : PointArrayM) (i : Nat) (h : i < a.len) :
    (a.iter.getD i none).isSome = isValid a.validity i := by
  rw [iter_getD a i h]
  cases hv : isValid a.validity i <;> simp [hv]

theorem getD_map_of_lt {α β : Type} (f : α → β) (l : List α) (i : Nat)
    (h : i < l.length) (d : β) (d' : α) :
    (l.map f).getD i d = f (l.getD i d') := by
  rw [List.getD_eq_getElem _ _ (by simpa using h), List.getD_eq_getElem _ _ h]
  simp

theorem getD_range_of_lt (n i : Nat) (h : i < n) (d : Nat) :
    (List.range n).getD i d = i := by
  rw [List.getD_eq_getElem _ _ (by simpa using h)]
  simp

/-! ## Claim C3 -/

/-- **C3, counterexample.** The claim asserts that *each source element*
occupies a run of length 1 at the added nesting level, for arrays "of
any length and with any validity"; but a null source element occupies a
run of length 0: on the single-null Point array, the MultiPoint result's
element 0 has zero points, not one. -/
theorem c3_counterexample :
    multiPointNumPoints (castPointToMultiPoint ⟨[(7, 7)], some [false]⟩) 0 = 0
    ∧ (castPointToMultiPoint ⟨[(7, 7)], some [false]⟩).len = 1 := by
  exact ⟨rfl, rfl⟩

/-- **C3 (amended).** Casting a Point array (any length, any validity) to
MultiPoint, Mixed or GeometryCollection always succeeds (the modelled
conversions are total functions); the result has the same length and
element-wise the same validity as the source, and each *valid* source
element occupies a run of length 1 at the added nesting level while each
null element occupies a run of length 0 (for Mixed, every element —
valid or null — occupies exactly one `types`/`offsets` slot pointing at
consecutive entries of the Point child). -/
theorem c3_point_upcast_run_structure (a : PointArrayM) :
    ((castPointToMultiPoint a).len = a.len
      ∧ (∀ i, i < a.len →
          isValid (castPointToMultiPoint a).validity i = isValid a.validity i)
      ∧ (∀ i, i < a.len →
          multiPointNumPoints (castPointToMultiPoint a) i
            = if isValid a.validity i then 1 else 0))
    ∧ ((castPointToMixed a).types.length = a.len
      ∧ (castPointToMixed a).offsets.length = a.len
      ∧ (∀ i, i < a.len → (castPointToMixed a).types.getD i 6 = 0)
      ∧ (∀ i, i < a.len → (castPointToMixed a).offsets.getD i 0 = i)
      ∧ (castPointToMixed a).points.validity.length = a.len
      ∧ (∀ i, i < a.len →
          (castPointToMixed a).points.validity.getD i true = isValid a.validity i))
    ∧ (offsetsLen (castPointToGeometryCollection a).geomOffsets = a.len
      ∧ (∀ i, i < a.len →
          isValid (castPointToGeometryCollection a).validity i = isValid a.validity i)
      ∧ (∀ i, i < a.len →
          runLen (castPointToGeometryCollection a).geomOffsets i
            = if isValid a.validity i then 1 else 0)) := by
  have hiterlen : a.iter.length = a.len := a.iter_length
  refine ⟨⟨?_, ?_, ?_⟩, ?_, ?_⟩
  · rw [castPointToMultiPoint_spec]
    show offsetsLen (0 :: offsetsFromRuns 0 (a.iter.map fun v => if v.isSome then 1 else 0))
      = a.len
    simp [offsetsLen, offsetsFromRuns_length, hiterlen]
  · intro i hi
    rw [castPointToMultiPoint_spec]
    show isValid (normValidity (a.iter.map (·.isSome))) i = isValid a.validity i
    rw [isValid_normValidity, getD_map_isSome _ _ (by rw [hiterlen]; exact hi),
      iter_isSome a i hi]
  · intro i hi
    rw [castPointToMultiPoint_spec]
    show runLen (0 :: offsetsFromRuns 0 (a.iter.map fun v => if v.isSome then 1 else 0)) i
      = if isValid a.validity i then 1 else 0
    rw [runLen_cons_offsetsFromRuns _ _ _ (by simp [hiterlen]; exact hi)]
    rw [getD_map_of_lt _ _ _ (by rw [hiterlen]; exact hi) _ none]
    rw [iter_isSome a i hi]
  all_goals
    obtain ⟨ht, ho, hp, hc⟩ := mixedPointFold_spec a.iter mixedBuilderNew
  · have hp2 : (castPointToMixed a).points
        = ⟨a.iter.map (fun v => v.getD nullCoord), a.iter.map (·.isSome)⟩ := by
      show (a.iter.foldl mixedPushPoint mixedBuilderNew).points = _
      rw [hp, pointBuilderFold_spec]
      rfl
    refine ⟨?_, ?_, ?_, ?_, ?_, ?_⟩
    · show (a.iter.foldl mixedPushPoint mixedBuilderNew).types.length = a.len
      rw [ht]
      simp [mixedBuilderNew, hiterlen]
    · show (a.iter.foldl mixedPushPoint mixedBuilderNew).offsets.length = a.len
      rw [ho]
      simp [mixedBuilderNew, hiterlen]
    · intro i hi
      show (a.iter.foldl mixedPushPoint mixedBuilderNew).types.getD i 6 = 0
      rw [ht]
      show (List.replicate a.iter.length 0).getD i 6 = 0
      exact getD_replicate_of_lt _ _ _ _ (by rw [hiterlen]; exact hi)
    · intro i hi
      show (a.iter.foldl mixedPushPoint mixedBuilderNew).offsets.getD i 0 = i
      rw [ho]
      show ((List.range a.iter.length).map (fun x => 0 + x)).getD i 0 = i
      rw [getD_map_of_lt _ _ _ (by simp [hiterlen]; exact hi) _ 0]
      rw [getD_range_of_lt _ _ (by rw [hiterlen]; exact hi)]
      omega
    · show (castPointToMixed a).points.validity.length = a.len
      rw [hp2]
      simp [hiterlen]
    · intro i hi
      show (castPointToMixed a).points.validity.getD i true = isValid a.validity i
      rw [hp2]
      show (a.iter.map (·.isSome)).getD i true = isValid a.validity i
      rw [getD_map_isSome _ _ (by rw [hiterlen]; exact hi), iter_isSome a i hi]
  · obtain ⟨hgo, hgv⟩ := gcPointFold_spec a.iter gcBuilderNew
    refine ⟨?_, ?_, ?_⟩
    · show offsetsLen (a.iter.foldl gcBuilderPushPoint gcBuilderNew).geomOffsets = a.len
      rw [hgo]
      show offsetsLen ([0] ++ offsetsFromRuns (offsetsLast [0])
        (a.iter.map fun v => if v.isSome then 1 else 0)) = a.len
      simp [offsetsLen, offsetsFromRuns_length, hiterlen]
    · intro i hi
      show isValid (normValidity (a.iter.foldl gcBuilderPushPoint gcBuilderNew).validity) i
        = isValid a.validity i
      rw [hgv]
      show isValid (normValidity ([] ++ a.iter.map (·.isSome))) i = isValid a.validity i
      rw [List.nil_append, isValid_normValidity,
        getD_map_isSome _ _ (by rw [hiterlen]; exact hi), iter_isSome a i hi]
    · intro i hi
      show runLen (a.iter.foldl gcBuilderPushPoint gcBuilderNew).geomOffsets i
        = if isValid a.validity i then 1 else 0
      rw [hgo]
      show runLen ([0] ++ offsetsFromRuns (offsetsLast [0])
        (a.iter.map fun v => if v.isSome then 1 else 0)) i = _
      have : offsetsLast [0] = 0 := rfl
      rw [this]
      show runLen (0 :: offsetsFromRuns 0 (a.iter.map fun v => if v.isSome then 1 else 0)) i
        = _
      rw [runLen_cons_offsetsFromRuns _ _ _ (by simp [hiterlen]; exact hi)]
      rw [getD_map_of_lt _ _ _ (by rw [hiterlen]; exact hi) _ none]
      rw [iter_isSome a i hi]

/-- **C3, witness.** The run structure at a concrete array with one
valid and one null element. -/
theorem c3_point_upcast_run_structure_witness :
    multiPointNumPoints (castPointToMultiPoint ⟨[(1, 2), (3, 4)], some [true, false]⟩) 0 = 1
    ∧ runLen (castPointToGeometryCollection
        ⟨[(1, 2), (3, 4)], some [true, false]⟩).geomOffsets 1 = 0 := by
  have h := c3_point_upcast_run_structure ⟨[(1, 2), (3, 4)], some [true, false]⟩
  refine ⟨?_, ?_⟩
  · have := h.1.2.2 0 (by decide)
    simpa using this
  · have := h.2.2.2.2 1 (by decide)
    simpa using this

/-! ## The MultiLineString two-pass builder
(`src/array/multilinestring/mutable.rs`) -/

/-- One step of `first_pass`: a `Some` pushes a true validity bit, one
geometry run of `num_lines`, and one ring run per line of its coordinate
count; a `None` pushes a false bit and a zero-length geometry run. -/
def firstPassStep (st : List Bool × List Nat × List Nat)
    (maybeMls : Option (List (List CoordM))) : List Bool × List Nat × List Nat :=
  match maybeMls with
  | some mls =>
      (st.1 ++ [true],
       offsetsPush st.2.1 mls.length,
       mls.foldl (fun ro line => offsetsPush ro line.length) st.2.2)
  | none => (st.1 ++ [false], offsetsPush st.2.1 0, st.2.2)

def firstPassFold (geoms : List (Option (List (List CoordM)))) :
    List Bool × List Nat × List Nat :=
  geoms.foldl firstPassStep ([], offsetsNew, offsetsNew)

/-- `first_pass`: returns `(geom_offsets, ring_offsets, validity)` with
the validity dropped when no bit is unset. -/
def first_pass (geoms : List (Option (List (List CoordM)))) :
    List Nat × List Nat × Option (List Bool) :=
  ((firstPassFold geoms).2.1, (firstPassFold geoms).2.2,
   normValidity (firstPassFold geoms).1)

/-- The coordinate buffer accumulated by `second_pass`: iterate the
values (`flatten` skips the `None`s), pushing every coordinate of every
line. -/
def secondPassCoords (geoms : List (Option (List (List CoordM)))) : List CoordM :=
  geoms.foldl
    (fun cb maybeMls =>
      match maybeMls with
      | some mls => mls.foldl (fun cb line => line.foldl (fun cb c => cb ++ [c]) cb) cb
      | none => cb) []

/-- `MutableMultiLineStringArray`. -/
structure MutableMultiLineStringArrayM where
  coords : List CoordM
  geomOffsets : List Nat
  ringOffsets : List Nat
  validity : Option (List Bool)
  deriving Repr, DecidableEq

/-- `second_pass`: fill the coordinate buffer and assemble the array from
the offsets and validity computed by `first_pass`. -/
def second_pass (geoms : List (Option (List (List CoordM))))
    (geomOffsets ringOffsets : List Nat) (validity : Option (List Bool)) :
    MutableMultiLineStringArrayM :=
  ⟨secondPassCoords geoms, geomOffsets, ringOffsets, validity⟩

/-! ### Structural lemmas for the two passes -/

theorem coordsFold_line (line : List CoordM) (cb : List CoordM) :
    line.foldl (fun cb c => cb ++ [c]) cb = cb ++ line := by
  induction line generalizing cb with
  | nil => simp
  | cons c rest ih => simp [ih, List.append_assoc]

theorem coordsFold_mls (mls : List (List CoordM)) (cb : List CoordM) :
    mls.foldl (fun cb line => line.foldl (fun cb c => cb ++ [c]) cb) cb
      = cb ++ mls.flatten := by
  induction mls generalizing cb with
  | nil => simp
  | cons line rest ih =>
    rw [List.foldl_cons, coordsFold_line, ih, List.flatten_cons, List.append_assoc]

theorem offsetsPush_ne_nil (o : List Nat) (r : Nat) : offsetsPush o r ≠ [] := by
  simp [offsetsPush]

theorem foldl_ringPush_ne_nil (mls : List (List CoordM)) (ro : List Nat) (h : ro ≠ []) :
    mls.foldl (fun ro line => offsetsPush ro line.length) ro ≠ [] := by
  induction mls generalizing ro with
  | nil => exact h
  | cons line rest ih => exact ih _ (offsetsPush_ne_nil _ _)

theorem firstPassFold_shape (gs : List (Option (List (List CoordM)))) :
    (firstPassFold gs).1.length = gs.length
    ∧ (firstPassFold gs).2.1.length = gs.length + 1
    ∧ (firstPassFold gs).2.2 ≠ [] := by
  suffices h : ∀ (st : List Bool × List Nat × List Nat), st.2.1 ≠ [] → st.2.2 ≠ [] →
      (gs.foldl firstPassStep st).1.length = st.1.length + gs.length
      ∧ (gs.foldl firstPassStep st).2.1.length = st.2.1.length + gs.length
      ∧ (gs.foldl firstPassStep st).2.2 ≠ [] by
    obtain ⟨h1, h2, h3⟩ := h ([], offsetsNew, offsetsNew)
      (by simp [offsetsNew]) (by simp [offsetsNew])
    refine ⟨?_, ?_, ?_⟩
    · simpa [firstPassFold, offsetsNew] using h1
    · have := h2
      simp only [firstPassFold, offsetsNew] at this ⊢
      rw [this]
      simp
      omega
    · simpa [firstPassFold, offsetsNew] using h3
  induction gs with
  | nil =>
    intro st h1 h2
    exact ⟨by simp, by simp, h2⟩
  | cons g rest ih =>
    intro st h1 h2
    have hstep1 : (firstPassStep st g).2.1 ≠ [] := by
      cases g <;> simp [firstPassStep, offsetsPush_ne_nil]
    have hstep2 : (firstPassStep st g).2.2 ≠ [] := by
      cases g with
      | none => exact h2
      | some mls => exact foldl_ringPush_ne_nil mls _ h2
    obtain ⟨ha, hb, hc⟩ := ih (firstPassStep st g) hstep1 hstep2
    refine ⟨?_, ?_, hc⟩
    · rw [List.foldl_cons] at *
      rw [ha]
      cases g <;> simp [firstPassStep] <;> omega
    · rw [List.foldl_cons] at *
      rw [hb]
      cases g <;> simp [firstPassStep, offsetsPush] <;> omega

theorem firstPassFold_geom_ne_nil (gs : List (Option (List (List CoordM)))) :
    (firstPassFold gs).2.1 ≠ [] := by
  have := (firstPassFold_shape gs).2.1
  intro hnil
  rw [hnil] at this
  simp at this

theorem getD_length_sub_one (o : List Nat) (h : o ≠ []) :
    o.getD (o.length - 1) 0 = offsetsLast o := by
  induction o with
  | nil => exact absurd rfl h
  | cons x t ih =>
    cases t with
    | nil => simp [offsetsLast]
    | cons y s =>
      have hs := ih (by simp)
      rw [offsetsLast_cons_cons]
      show (x :: y :: s).getD ((y :: s).length) 0 = _
      simp only [List.length_cons]
      rw [List.getD_cons_succ]
      simpa using hs

theorem runLen_offsetsPush_last (o : List Nat) (r : Nat) (h : o ≠ []) :
    runLen (offsetsPush o r) (offsetsLen o) = r := by
  unfold runLen offsetsPush offsetsLen
  have hpos : 0 < o.length := List.length_pos.mpr h
  rw [show o.length - 1 + 1 = o.length by omega]
  rw [List.getD_append_right _ _ _ _ (le_refl _)]
  rw [List.getD_append _ _ _ _ (by omega)]
  simp only [Nat.sub_self, List.getD_cons_zero]
  rw [getD_length_sub_one o h]
  omega

theorem runLen_append_tail (o : List Nat) (h : o ≠ []) (X : List Nat) (j : Nat) :
    runLen (o ++ X) (offsetsLen o + j) = runLen (offsetsLast o :: X) j := by
  have hpos : 0 < o.length := List.length_pos.mpr h
  unfold runLen offsetsLen
  cases j with
  | zero =>
    rw [show o.length - 1 + 0 + 1 = o.length by omega]
    rw [List.getD_append_right _ _ _ _ (le_refl _), Nat.sub_self]
    rw [List.getD_append _ _ _ _ (by omega)]
    rw [show o.length - 1 + 0 = o.length - 1 by omega, getD_length_sub_one o h]
    rfl
  | succ k =>
    rw [show o.length - 1 + (k + 1) + 1 = o.length + (k + 1) by omega]
    rw [show o.length - 1 + (k + 1) = o.length + k by omega]
    rw [List.getD_append_right _ _ _ _ (by omega), List.getD_append_right _ _ _ _ (by omega)]
    rw [show o.length + (k + 1) - o.length = k + 1 by omega,
      show o.length + k - o.length = k by omega]
    rfl

/-! ## Claim C4 -/

/-- **C4 (confirmed).** Building a MultiLineString array by the two-pass
builder: each `None` input sets its validity bit to false, pushes a
zero-length run on the geometry-level offsets, pushes nothing on the
ring-level offsets and appends no coordinates; each `Some` input sets
its bit to true and pushes one geometry run of length `num_lines`, one
ring run per constituent line string holding exactly its coordinate
count, and the lines' coordinates. -/
theorem c4_multilinestring_two_pass (gs : List (Option (List (List CoordM))))
    (mls : List (List CoordM)) :
    ((first_pass (gs ++ [none])).1 = offsetsPush (first_pass gs).1 0
    ∧ runLen (first_pass (gs ++ [none])).1 gs.length = 0
    ∧ (first_pass (gs ++ [none])).2.1 = (first_pass gs).2.1
    ∧ isValid (first_pass (gs ++ [none])).2.2 gs.length = false
    ∧ secondPassCoords (gs ++ [none]) = secondPassCoords gs)
    ∧ ((first_pass (gs ++ [some mls])).1 = offsetsPush (first_pass gs).1 mls.length
    ∧ runLen (first_pass (gs ++ [some mls])).1 gs.length = mls.length
    ∧ (first_pass (gs ++ [some mls])).2.1
        = (first_pass gs).2.1
          ++ offsetsFromRuns (offsetsLast (first_pass gs).2.1) (mls.map List.length)
    ∧ (∀ j, j < mls.length →
        runLen (first_pass (gs ++ [some mls])).2.1
            (offsetsLen (first_pass gs).2.1 + j)
          = (mls.getD j []).length)
    ∧ isValid (first_pass (gs ++ [some mls])).2.2 gs.length = true
    ∧ secondPassCoords (gs ++ [some mls]) = secondPassCoords gs ++ mls.flatten) := by
  obtain ⟨hvlen, hglen, hrnil⟩ := firstPassFold_shape gs
  have hgnil := firstPassFold_geom_ne_nil gs
  have hsnocN : firstPassFold (gs ++ [none]) = firstPassStep (firstPassFold gs) none := by
    unfold firstPassFold
    rw [List.foldl_append]
    rfl
  have hsnocS : firstPassFold (gs ++ [some mls])
      = firstPassStep (firstPassFold gs) (some mls) := by
    unfold firstPassFold
    rw [List.foldl_append]
    rfl
  have hglen' : offsetsLen (firstPassFold gs).2.1 = gs.length := by
    simp [offsetsLen, hglen]
  constructor
  · refine ⟨?_, ?_, ?_, ?_, ?_⟩
    · show (firstPassFold (gs ++ [none])).2.1 = offsetsPush (firstPassFold gs).2.1 0
      rw [hsnocN]
      rfl
    · show runLen (firstPassFold (gs ++ [none])).2.1 gs.length = 0
      rw [hsnocN]
      show runLen (offsetsPush (firstPassFold gs).2.1 0) gs.length = 0
      rw [← hglen']
      exact runLen_offsetsPush_last _ _ hgnil
    · show (firstPassFold (gs ++ [none])).2.2 = (firstPassFold gs).2.2
      rw [hsnocN]
      rfl
    · show isValid (normValidity (firstPassFold (gs ++ [none])).1) gs.length = false
      rw [hsnocN, isValid_normValidity]
      show ((firstPassFold gs).1 ++ [false]).getD gs.length true = false
      rw [List.getD_append_right _ _ _ _ (by omega), hvlen, Nat.sub_self]
      rfl
    · unfold secondPassCoords
      rw [List.foldl_append]
      rfl
  · refine ⟨?_, ?_, ?_, ?_, ?_, ?_⟩
    · show (firstPassFold (gs ++ [some mls])).2.1
        = offsetsPush (firstPassFold gs).2.1 mls.length
      rw [hsnocS]
      rfl
    · show runLen (firstPassFold (gs ++ [some mls])).2.1 gs.length = mls.length
      rw [hsnocS]
      show runLen (offsetsPush (firstPassFold gs).2.1 mls.length) gs.length = mls.length
      rw [← hglen']
      exact runLen_offsetsPush_last _ _ hgnil
    · show (firstPassFold (gs ++ [some mls])).2.2 = _
      rw [hsnocS]
      show mls.foldl (fun ro line => offsetsPush ro line.length) (firstPassFold gs).2.2 = _
      rw [foldl_offsetsPush_eq List.length mls (firstPassFold gs).2.2]
      rfl
    · intro j hj
      show runLen (firstPassFold (gs ++ [some mls])).2.2
        (offsetsLen (firstPassFold gs).2.2 + j) = (mls.getD j []).length
      rw [hsnocS]
      show runLen
        (mls.foldl (fun ro line => offsetsPush ro line.length) (firstPassFold gs).2.2)
        (offsetsLen (firstPassFold gs).2.2 + j) = _
      rw [foldl_offsetsPush_eq List.length mls (firstPassFold gs).2.2]
      rw [runLen_append_tail _ hrnil]
      show runLen (offsetsLast (firstPassFold gs).2.2
        :: offsetsFromRuns (offsetsLast (firstPassFold gs).2.2) (mls.map List.length)) j = _
      rw [runLen_cons_offsetsFromRuns _ _ _ (by simpa using hj)]
      rw [getD_map_of_lt List.length mls j hj _ []]
    · show isValid (normValidity (firstPassFold (gs ++ [some mls])).1) gs.length = true
      rw [hsnocS, isValid_normValidity]
      show ((firstPassFold gs).1 ++ [true]).getD gs.length true = true
      rw [List.getD_append_right _ _ _ _ (by omega), hvlen, Nat.sub_self]
      rfl
    · unfold secondPassCoords
      rw [List.foldl_append]
      show mls.foldl (fun cb line => line.foldl (fun cb c => cb ++ [c]) cb)
        (gs.foldl (fun cb maybeMls => match maybeMls with
          | some mls => mls.foldl (fun cb line => line.foldl (fun cb c => cb ++ [c]) cb) cb
          | none => cb) []) = _
      rw [coordsFold_mls]

/-- **C4, witness.** The two-pass characterisation at a concrete input:
the null element's geometry run is empty, and a pushed line's ring run
holds its coordinate count. -/
theorem c4_multilinestring_two_pass_witness :
    runLen (first_pass [some [[(0, 1), (1, 2)]], none]).1 1 = 0
    ∧ runLen (first_pass [some [[(0, 1), (1, 2)]], some [[(3, 4)]]]).2.1
        (offsetsLen (first_pass [some [[(0, 1), (1, 2)]]]).2.1) = 1 := by
  have h := c4_multilinestring_two_pass [some [[(0, 1), (1, 2)]]] [[(3, 4)]]
  refine ⟨?_, ?_⟩
  · simpa using h.1.2.1
  · have := h.2.2.2.2.1 0 (by decide)
    simpa using this

/-! ## The WKB array codec for points -/

/-- `WKBArray`: a binary array — per-element byte runs delimited by an
offsets buffer over a flat byte buffer — plus validity. -/
structure WKBArrayM where
  offsets : List Nat
  values : List Nat
  validity : Option (List Bool)
  deriving Repr, DecidableEq

/-- `From<&PointArray> for WKBArray`
(`src/io/wkb/writer/point.rs`): clone the validity, then for every
non-null element (`iter().flatten()`) write its WKB bytes and push a
`POINT_WKB_SIZE` run. -/
def pointArrayToWkb (a : PointArrayM) : WKBArrayM :=
  ⟨(a.iter.filterMap id).foldl (fun o _ => offsetsPush o POINT_WKB_SIZE) offsetsNew,
   (a.iter.filterMap id).foldl (fun vs c => vs ++ write_point_as_wkb c) [],
   a.validity⟩

/-- The byte run of element `i` of a WKB array. -/
def wkbElement (w : WKBArrayM) (i : Nat) : List Nat :=
  (w.values.drop (w.offsets.getD i 0)).take (runLen w.offsets i)

/-- Modelled from the spec: the WKB reader
(`TryFrom<WKBArray> for PointArray`) is not under `src/`.  Per §4.5/§6 a
WKB point is decoded by reading the 1-byte endianness flag (1 = little
endian), the 4-byte geometry type code (must be 1 = Point), then the two
8-byte little-endian doubles; anything else is rejected. -/
def readWkbPoint (bs : List Nat) : Option CoordM :=
  if bs.length = POINT_WKB_SIZE ∧ bs.getD 0 0 = 1 ∧ (bs.drop 1).take 4 = toLEBytes 4 1
  then some (fromLEBytes ((bs.drop 5).take 8), fromLEBytes (bs.drop 13))
  else none

/-- Modelled from the spec: decoding a WKB array decodes every element
and fails if any element is malformed. -/
def wkbToPointArray (w : WKBArrayM) : Option PointArrayM :=
  ((List.range (offsetsLen w.offsets)).mapM fun i => readWkbPoint (wkbElement w i)).map
    fun coords => ⟨coords, w.validity⟩

/-! ### Round-trip lemmas -/

theorem write_point_as_wkb_parts (c : CoordM) :
    (write_point_as_wkb c).length = 21
    ∧ ((write_point_as_wkb c).drop 1).take 4 = toLEBytes 4 1
    ∧ ((write_point_as_wkb c).drop 5).take 8 = toLEBytes 8 c.1
    ∧ (write_point_as_wkb c).drop 13 = toLEBytes 8 c.2 := by
  have hw : write_point_as_wkb c =
      1 :: 1 :: 0 :: 0 :: 0 :: (toLEBytes 8 c.1 ++ toLEBytes 8 c.2) := rfl
  refine ⟨?_, rfl, ?_, ?_⟩
  · rw [hw]
    simp [toLEBytes_length]
  · rw [hw]
    show (toLEBytes 8 c.1 ++ toLEBytes 8 c.2).take 8 = toLEBytes 8 c.1
    rw [List.take_append_of_le_length (by simp [toLEBytes_length])]
    exact List.take_of_length_le (by simp [toLEBytes_length])
  · rw [hw]
    show (toLEBytes 8 c.1 ++ toLEBytes 8 c.2).drop 8 = toLEBytes 8 c.2
    exact List.drop_left' (toLEBytes_length 8 c.1)

theorem readWkbPoint_write (c : CoordM) (h1 : c.1 < 2 ^ 64) (h2 : c.2 < 2 ^ 64) :
    readWkbPoint (write_point_as_wkb c) = some c := by
  obtain ⟨hl, h4, h8a, h8b⟩ := write_point_as_wkb_parts c
  have h64 : (256 : Nat) ^ 8 = 2 ^ 64 := by norm_num
  have hcond : (write_point_as_wkb c).length = POINT_WKB_SIZE
      ∧ (write_point_as_wkb c).getD 0 0 = 1
      ∧ ((write_point_as_wkb c).drop 1).take 4 = toLEBytes 4 1 :=
    ⟨by rw [hl]; rfl, rfl, h4⟩
  unfold readWkbPoint
  rw [if_pos hcond]
  rw [h8a, h8b]
  rw [fromLEBytes_toLEBytes_of_lt (by rw [h64]; exact h1),
    fromLEBytes_toLEBytes_of_lt (by rw [h64]; exact h2)]

theorem foldl_append_eq_flatten {α β : Type} (f : α → List β) (l : List α) (vs : List β) :
    l.foldl (fun vs c => vs ++ f c) vs = vs ++ (l.map f).flatten := by
  induction l generalizing vs with
  | nil => simp
  | cons c rest ih => simp [ih, List.append_assoc]

theorem flatten_chunk_extract {α : Type} (chunks : List (List α)) (k : Nat)
    (hk : ∀ c ∈ chunks, c.length = k) (i : Nat) (hi : i < chunks.length) :
    (chunks.flatten.drop (i * k)).take k = chunks.getD i [] := by
  induction chunks generalizing i with
  | nil => simp at hi
  | cons c rest ih =>
    cases i with
    | zero =>
      simp only [List.flatten_cons, Nat.zero_mul, List.drop_zero, List.getD_cons_zero]
      rw [List.take_append_of_le_length (le_of_eq (hk c (List.mem_cons_self c rest)).symm)]
      exact List.take_of_length_le (le_of_eq (hk c (List.mem_cons_self c rest)))
    | succ j =>
      simp only [List.flatten_cons, List.getD_cons_succ]
      have hstep : (j + 1) * k = c.length + j * k := by
        rw [hk c (List.mem_cons_self c rest)]
        ring
      rw [hstep, ← List.drop_drop, List.drop_left]
      exact ih (fun d hd => hk d (List.mem_cons_of_mem _ hd)) j (by simpa using hi)

theorem mapM_option_some {α β : Type} (f : α → Option β) (g : α → β) (l : List α)
    (h : ∀ x ∈ l, f x = some (g x)) : l.mapM f = some (l.map g) := by
  induction l with
  | nil => rfl
  | cons x t ih =>
    rw [List.mapM_cons, h x (List.mem_cons_self x t),
      ih (fun y hy => h y (List.mem_cons_of_mem _ hy))]
    rfl

/-- Closed form of the WKB writer on an all-valid point array. -/
theorem pointArrayToWkb_allValid (a : PointArrayM)
    (h : ∀ i, i < a.len → isValid a.validity i = true) :
    pointArrayToWkb a =
      ⟨0 :: offsetsFromRuns 0 (List.replicate a.len POINT_WKB_SIZE),
       (a.coords.map write_point_as_wkb).flatten,
       a.validity⟩ := by
  have hcoords : a.iter.filterMap id = a.coords := by
    rw [iter_allValid a h]
    simp
  unfold pointArrayToWkb
  rw [hcoords]
  simp only [WKBArrayM.mk.injEq]
  refine ⟨?_, ?_, trivial⟩
  · simp only [foldl_offsetsPush_eq (fun (_ : CoordM) => POINT_WKB_SIZE)]
    show offsetsNew ++ offsetsFromRuns (offsetsLast offsetsNew)
      (a.coords.map fun _ => POINT_WKB_SIZE) = _
    have : a.coords.map (fun _ => POINT_WKB_SIZE) = List.replicate a.len POINT_WKB_SIZE := by
      show _ = List.replicate a.coords.length POINT_WKB_SIZE
      simp
    rw [this]
    rfl
  · rw [foldl_append_eq_flatten]
    rfl

/-! ## Claim C6 -/

/-- **C6 (confirmed).** For every PointArray whose elements are all valid
(and whose coordinate bit patterns are 64-bit, as every IEEE-754 double
is), encoding to a WKBArray and decoding back yields exactly the
original array, with bit-exact x and y at every index. -/
theorem c6_wkb_point_roundtrip (a : PointArrayM)
    (h : ∀ i, i < a.len → isValid a.validity i = true)
    (hb : ∀ c ∈ a.coords, c.1 < 2 ^ 64 ∧ c.2 < 2 ^ 64) :
    wkbToPointArray (pointArrayToWkb a) = some a := by
  rw [pointArrayToWkb_allValid a h]
  have hlen : offsetsLen (WKBArrayM.mk
      (0 :: offsetsFromRuns 0 (List.replicate a.len POINT_WKB_SIZE))
      ((a.coords.map write_point_as_wkb).flatten) a.validity).offsets = a.len := by
    simp [offsetsLen, offsetsFromRuns_length]
  have helem : ∀ i, i < a.len →
      wkbElement ⟨0 :: offsetsFromRuns 0 (List.replicate a.len POINT_WKB_SIZE),
        (a.coords.map write_point_as_wkb).flatten, a.validity⟩ i
      = write_point_as_wkb (a.coords.getD i nullCoord) := by
    intro i hi
    unfold wkbElement
    have hstart : (0 :: offsetsFromRuns 0
        (List.replicate a.len POINT_WKB_SIZE)).getD i 0 = i * POINT_WKB_SIZE := by
      rw [getD_cons_offsetsFromRuns _ _ _ (by simp; omega)]
      rw [List.take_replicate]
      simp [Nat.min_eq_left (Nat.le_of_lt hi), smul_eq_mul]
    have hrun : runLen (0 :: offsetsFromRuns 0
        (List.replicate a.len POINT_WKB_SIZE)) i = POINT_WKB_SIZE := by
      rw [runLen_cons_offsetsFromRuns _ _ _ (by simpa using hi)]
      exact getD_replicate_of_lt _ _ _ _ hi
    show ((a.coords.map write_point_as_wkb).flatten.drop
        ((0 :: offsetsFromRuns 0 (List.replicate a.len POINT_WKB_SIZE)).getD i 0)).take
        (runLen (0 :: offsetsFromRuns 0 (List.replicate a.len POINT_WKB_SIZE)) i) = _
    rw [hstart, hrun]
    rw [flatten_chunk_extract (a.coords.map write_point_as_wkb) POINT_WKB_SIZE
      (by
        intro d hd
        obtain ⟨c, _, rfl⟩ := List.mem_map.mp hd
        exact (write_point_as_wkb_parts c).1)
      i (by simpa using hi)]
    exact getD_map_of_lt _ _ _ hi _ nullCoord
  unfold wkbToPointArray
  rw [hlen]
  rw [mapM_option_some _ (fun i => a.coords.getD i nullCoord) _ (fun i hi => by
    rw [helem i (List.mem_range.mp hi)]
    have hmem : a.coords.getD i nullCoord ∈ a.coords := by
      have hilt : i < a.coords.length := List.mem_range.mp hi
      rw [List.getD_eq_getElem _ _ hilt]
      exact List.getElem_mem hilt
    exact readWkbPoint_write _ (hb _ hmem).1 (hb _ hmem).2)]
  show some (PointArrayM.mk ((List.range a.len).map fun i => a.coords.getD i nullCoord)
    a.validity) = some a
  rw [show a.len = a.coords.length from rfl, map_getD_range]

/-- **C6, witness.** The round trip at a concrete all-valid array of
64-bit patterns. -/
theorem c6_wkb_point_roundtrip_witness :
    wkbToPointArray (pointArrayToWkb ⟨[(3, 4), (18446744073709551615, 0)], none⟩) =
      some ⟨[(3, 4), (18446744073709551615, 0)], none⟩ :=
  c6_wkb_point_roundtrip ⟨[(3, 4), (18446744073709551615, 0)], none⟩
    (by decide) (by decide)

/-! ## LineString arrays and slicing (`src/linestring/array.rs`,
`src/coord/interleaved/array.rs`) -/

/-- `LineStringArray`: coordinate buffer + geometry offsets + validity. -/
structure LineStringArrayM where
  coords : List CoordM
  geomOffsets : List Nat
  validity : Option (List Bool)
  deriving Repr, DecidableEq

def LineStringArrayM.len (a : LineStringArrayM) : Nat := offsetsLen a.geomOffsets

/-- `value(i)`: the coordinate run of geometry `i`, read through the
owning buffers (zero-copy scalar view). -/
def lineStringValue (a : LineStringArrayM) (i : Nat) : List CoordM :=
  (a.coords.drop (a.geomOffsets.getD i 0)).take (runLen a.geomOffsets i)

/-- `is_null(i)`. -/
def LineStringArrayM.isNull (a : LineStringArrayM) (i : Nat) : Bool :=
  !(isValid a.validity i)

/-- `LineStringArray::slice(offset, length)`: asserts
`offset + length <= len` (else panic, modelled as `none`); shares the
coordinate buffer, windows `length + 1` offsets starting at `offset`,
slices the validity window and drops it when no bit is unset
(`(unset_bits > 0).then_some`). -/
def lineStringSlice (a : LineStringArrayM) (offset length : Nat) :
    Option LineStringArrayM :=
  if offset + length ≤ a.len then
    some ⟨a.coords,
      (a.geomOffsets.drop offset).take (length + 1),
      a.validity.bind fun v => normValidity ((v.drop offset).take length)⟩
  else none

/-- `InterleavedCoordBuffer`: one flat buffer of doubles, `x,y,x,y,…`. -/
structure InterleavedCoordBufferM where
  coords : List Nat
  deriving Repr, DecidableEq

def InterleavedCoordBufferM.len (b : InterleavedCoordBufferM) : Nat :=
  b.coords.length / 2

/-- `InterleavedCoordBuffer::slice`: slice the flat buffer at doubled
offset and length. -/
def interleavedSlice (b : InterleavedCoordBufferM) (offset length : Nat) :
    InterleavedCoordBufferM :=
  ⟨(b.coords.drop (offset * 2)).take (length * 2)⟩

theorem getD_take_of_lt' {α : Type} (v : List α) (n i : Nat) (h : i < n) (d : α) :
    (v.take n).getD i d = v.getD i d := by
  by_cases hv : i < v.length
  · rw [List.getD_eq_getElem _ _ (by simp; omega), List.getD_eq_getElem _ _ hv]
    simp
  · rw [List.getD_eq_default _ _ (by simp; omega), List.getD_eq_default _ _ (by omega)]

/-! ## Claim C9 -/

/-- **C9 (confirmed).** For every LineString array `a`, the full slice
`a.slice(0, a.len())` succeeds (the `offset + length <= len` assertion
holds), keeps the same coordinate buffer and the very same offsets
buffer, has length `a.len()`, agrees with `a` on `is_null` at every
index below the length, and yields the same scalar value at every index;
likewise a full slice of an interleaved coordinate buffer (its length
being even, per the §3 invariant) is the buffer itself. -/
theorem c9_full_slice_identity (a : LineStringArrayM) (b : InterleavedCoordBufferM)
    (hb : b.coords.length % 2 = 0) :
    lineStringSlice a 0 a.len
      = some ⟨a.coords, a.geomOffsets,
          a.validity.bind fun v => normValidity (v.take a.len)⟩
    ∧ (LineStringArrayM.mk a.coords a.geomOffsets
        (a.validity.bind fun v => normValidity (v.take a.len))).len = a.len
    ∧ (∀ i, i < a.len →
        (LineStringArrayM.mk a.coords a.geomOffsets
          (a.validity.bind fun v => normValidity (v.take a.len))).isNull i
          = a.isNull i)
    ∧ (∀ i, lineStringValue (LineStringArrayM.mk a.coords a.geomOffsets
        (a.validity.bind fun v => normValidity (v.take a.len))) i
          = lineStringValue a i)
    ∧ interleavedSlice b 0 b.len = b := by
  refine ⟨?_, rfl, ?_, fun i => rfl, ?_⟩
  · unfold lineStringSlice
    rw [if_pos (by omega)]
    have hoff : (a.geomOffsets.drop 0).take (a.len + 1) = a.geomOffsets := by
      rw [List.drop_zero]
      apply List.take_of_length_le
      show a.geomOffsets.length ≤ offsetsLen a.geomOffsets + 1
      unfold offsetsLen
      omega
    rw [hoff]
    rfl
  · intro i hi
    unfold LineStringArrayM.isNull
    cases hv : a.validity with
    | none => rfl
    | some v =>
      show (!(isValid (normValidity (v.take a.len)) i)) = (!(isValid (some v) i))
      rw [isValid_normValidity, getD_take_of_lt' v a.len i hi]
      rfl
  · unfold interleavedSlice InterleavedCoordBufferM.len
    have : (b.coords.drop (0 * 2)).take (b.coords.length / 2 * 2) = b.coords := by
      rw [Nat.zero_mul, List.drop_zero]
      apply List.take_of_length_le
      omega
    rw [this]

/-- **C9, witness.** The full-slice identity at concrete arrays. -/
theorem c9_full_slice_identity_witness :
    lineStringSlice ⟨[(0, 1), (1, 2), (3, 4), (5, 6)], [0, 2, 4], some [true, false]⟩ 0 2
      = some ⟨[(0, 1), (1, 2), (3, 4), (5, 6)], [0, 2, 4], some [true, false]⟩
    ∧ interleavedSlice ⟨[0, 1, 1, 2]⟩ 0 2 = ⟨[0, 1, 1, 2]⟩ := by
  have h := c9_full_slice_identity
    ⟨[(0, 1), (1, 2), (3, 4), (5, 6)], [0, 2, 4], some [true, false]⟩
    ⟨[0, 1, 1, 2]⟩ (by decide)
  refine ⟨?_, h.2.2.2.2⟩
  have h1 := h.1
  simpa using h1

/-! ## Claim C10 -/

/-- `From<LineStringArray> for MultiPointArray`
(`src/linestring/array.rs`): LineString and MultiPoint share the same
physical layout, so the conversion passes the coordinate buffer, the
geometry offsets and the validity through unchanged (no copy — in this
embedding, buffer identity is stated as equality of the fields). -/
def lineStringToMultiPoint (a : LineStringArrayM) : MultiPointArrayM :=
  ⟨a.coords, a.geomOffsets, a.validity⟩

/-- The scalar view of element `i` of a multipoint array: its run of
coordinates. -/
def multiPointValue (a : MultiPointArrayM) (i : Nat) : List CoordM :=
  (a.coords.drop (a.geomOffsets.getD i 0)).take (runLen a.geomOffsets i)

/-- `MutablePolygonArray` (same layout as
`MutableMultiLineStringArray`). -/
structure MutablePolygonArrayM where
  coords : List CoordM
  geomOffsets : List Nat
  ringOffsets : List Nat
  validity : Option (List Bool)
  deriving Repr, DecidableEq

/-- `From<MutableMultiLineStringArray> for MutablePolygonArray`
(`src/array/multilinestring/mutable.rs`): `try_new` with the same
coordinates, geometry offsets, ring offsets and validity, unwrapped. -/
def mutableMultiLineStringToPolygon (v : MutableMultiLineStringArrayM) :
    MutablePolygonArrayM :=
  ⟨v.coords, v.geomOffsets, v.ringOffsets, v.validity⟩

/-- **C10 (confirmed).** Converting a LineStringArray into a
MultiPointArray reuses the identical coordinate buffer, geometry offsets
and validity bitmap (field-for-field equality — no copy); the result has
the same length and, at every index, the multipoint's coordinates are
exactly the linestring's coordinates in order.  The same field-identical
reinterpretation holds from MutableMultiLineStringArray to
MutablePolygonArray. -/
theorem c10_layout_reinterpretation (a : LineStringArrayM)
    (v : MutableMultiLineStringArrayM) :
    (lineStringToMultiPoint a).coords = a.coords
    ∧ (lineStringToMultiPoint a).geomOffsets = a.geomOffsets
    ∧ (lineStringToMultiPoint a).validity = a.validity
    ∧ (lineStringToMultiPoint a).len = a.len
    ∧ (∀ i, multiPointValue (lineStringToMultiPoint a) i = lineStringValue a i)
    ∧ (mutableMultiLineStringToPolygon v).coords = v.coords
    ∧ (mutableMultiLineStringToPolygon v).geomOffsets = v.geomOffsets
    ∧ (mutableMultiLineStringToPolygon v).ringOffsets = v.ringOffsets
    ∧ (mutableMultiLineStringToPolygon v).validity = v.validity :=
  ⟨rfl, rfl, rfl, rfl, fun _ => rfl, rfl, rfl, rfl, rfl⟩

/-! ## Claim C1 -/

/-- **C1, counterexample.** The claim states that casting a MultiPoint
array downward to Point fails with a typed error whenever some element
holds 0 or 2-or-more children.  On the array with coordinates
`[(1,2),(3,4)]`, geometry offsets `[0,2,2]` and validity `[true,false]`,
element 0 holds 2 points, yet the cast returns `Ok` (the guard only
compares the final offset against the array length, and the null
element's empty run compensates for the doubled first run; the second
point is silently dropped). -/
theorem c1_counterexample :
    multiPointNumPoints ⟨[(1, 2), (3, 4)], [0, 2, 2], some [true, false]⟩ 0 = 2 ∧
      (castMultiPointToPoint
        ⟨[(1, 2), (3, 4)], [0, 2, 2], some [true, false]⟩).isOk = true := by
  exact ⟨rfl, rfl⟩

/-- **C1 (amended).** Downward casting a MultiPoint array to Point
(resp. a MultiPolygon array to Polygon) returns `Ok` iff the final
geometry offset equals the array length and every *valid* element's run
is nonempty; when the final offset differs from the length the cast
fails with the typed recoverable error `General "Unable to cast"` (not a
dedicated `ShapeMismatch` variant); when the final offset matches but
some valid element's run is empty, the cast panics
(`point(0).unwrap()` / `polygon(0).unwrap()` on `None`).  For arrays
without a validity bitmap and well-formed offsets, `Ok` is equivalent to
every run having multiplicity exactly 1.  The cast never mutates its
source (it is a pure function of the source array in this embedding). -/
theorem c1_downcast_multiplicity_characterization
    (a : MultiPointArrayM) (b : MultiPolygonArrayM) :
    (castMultiPointToPoint a = .err (.general "Unable to cast") ↔
      offsetsLast a.geomOffsets ≠ a.len)
    ∧ ((castMultiPointToPoint a).isPanic = true ↔
        offsetsLast a.geomOffsets = a.len ∧
          ∃ i, i < a.len ∧ isValid a.validity i = true ∧ multiPointNumPoints a i = 0)
    ∧ ((castMultiPointToPoint a).isOk = true ↔
        offsetsLast a.geomOffsets = a.len ∧
          ∀ i, i < a.len → isValid a.validity i = true → 0 < multiPointNumPoints a i)
    ∧ (a.validity = none → offsetsWF a.geomOffsets = true →
        ((castMultiPointToPoint a).isOk = true ↔
          ∀ i, i < a.len → multiPointNumPoints a i = 1))
    ∧ (castMultiPolygonToPolygon b = .err (.general "Unable to cast") ↔
        offsetsLast b.geomOffsets ≠ b.len)
    ∧ ((castMultiPolygonToPolygon b).isPanic = true ↔
        offsetsLast b.geomOffsets = b.len ∧
          ∃ i, i < b.len ∧ isValid b.validity i = true ∧ multiPolygonNumPolygons b i = 0)
    ∧ ((castMultiPolygonToPolygon b).isOk = true ↔
        offsetsLast b.geomOffsets = b.len ∧
          ∀ i, i < b.len → isValid b.validity i = true → 0 < multiPolygonNumPolygons b i)
    ∧ (b.validity = none → offsetsWF b.geomOffsets = true →
        ((castMultiPolygonToPolygon b).isOk = true ↔
          ∀ i, i < b.len → multiPolygonNumPolygons b i = 1)) :=
  ⟨castMultiPointToPoint_err_iff a,
   castMultiPointToPoint_panic_iff a,
   castMultiPointToPoint_isOk_iff a,
   fun hv hwf => castMultiPointToPoint_nonull_iff a hv hwf,
   castMultiPolygonToPolygon_err_iff b,
   castMultiPolygonToPolygon_panic_iff b,
   castMultiPolygonToPolygon_isOk_iff b,
   fun hv hwf => castMultiPolygonToPolygon_nonull_iff b hv hwf⟩

/-- **C1, witness.** The characterisation applied at concrete singleton
arrays whose single run has multiplicity 1: both downward casts succeed. -/
theorem c1_downcast_multiplicity_characterization_witness :
    (castMultiPointToPoint ⟨[(9, 9)], [0, 1], none⟩).isOk = true ∧
      (castMultiPolygonToPolygon
        ⟨[(9, 9)], [0, 1], [0, 1], [0, 1], none⟩).isOk = true := by
  have h := c1_downcast_multiplicity_characterization
    ⟨[(9, 9)], [0, 1], none⟩ ⟨[(9, 9)], [0, 1], [0, 1], [0, 1], none⟩
  exact ⟨(h.2.2.2.1 rfl (by decide)).mpr (by decide),
         (h.2.2.2.2.2.2.2 rfl (by decide)).mpr (by decide)⟩

/-! ## Claim C7 -/

/-- **C7 (confirmed).** For every point, `write_point_as_wkb` emits
exactly 21 bytes (`POINT_WKB_SIZE = 1 + 4 + 8 + 8`): byte 0 is 1 (the
little-endian flag), bytes 1–4 are the 32-bit geometry type code 1
(Point) in little-endian order, followed by the point's x and then y bit
patterns as little-endian 8-byte (IEEE-754 double) sequences. -/
theorem c7_wkb_point_byte_layout (point : CoordM) :
    (write_point_as_wkb point).length = 21
    ∧ POINT_WKB_SIZE = 21
    ∧ (write_point_as_wkb point).getD 0 0 = 1
    ∧ ((write_point_as_wkb point).drop 1).take 4 = toLEBytes 4 1
    ∧ toLEBytes 4 1 = [1, 0, 0, 0]
    ∧ ((write_point_as_wkb point).drop 5).take 8 = toLEBytes 8 point.1
    ∧ (write_point_as_wkb point).drop 13 = toLEBytes 8 point.2 := by
  have hw : write_point_as_wkb point =
      1 :: 1 :: 0 :: 0 :: 0 :: (toLEBytes 8 point.1 ++ toLEBytes 8 point.2) := rfl
  refine ⟨?_, rfl, rfl, rfl, rfl, ?_, ?_⟩
  · rw [hw]
    simp [toLEBytes_length]
  · rw [hw]
    show (toLEBytes 8 point.1 ++ toLEBytes 8 point.2).take 8 = toLEBytes 8 point.1
    rw [List.take_append_of_le_length (by simp [toLEBytes_length])]
    exact List.take_of_length_le (by simp [toLEBytes_length])
  · rw [hw]
    show (toLEBytes 8 point.1 ++ toLEBytes 8 point.2).drop 8 = toLEBytes 8 point.2
    exact List.drop_left' (toLEBytes_length 8 point.1)

end GeoArrow

